import Mathlib

/-
Verification of the StochasticGame discrete-event combat simulation engine
(src/engine.py, with the evolved duplicates src/pieces.py and src/facilities.py).

The engine is embedded shallowly:

* Python integers are `ℤ`, floating-point quantities (simulated time, Poisson
  rates, uniform samples) are `ℚ`.
* The process-wide numpy random stream is an explicit state `RNG`: every call
  into `numpy.random` consumes one word of an abstract stream, so the order of
  consumption is part of the model.  `numpy.random.randint(lo, hi)` is
  high-EXCLUSIVE and is modelled as `lo + u % (hi - lo)` for a stream word `u`
  (every residue is attainable, which is what "possible outcome" means here).
* The simpy scheduler is a queue of `(time, priority, eid)`-keyed entries, one
  per pending process wake-up, popped in lexicographic key order exactly as
  simpy's event heap does (process-start events are URGENT = priority 0,
  timeouts NORMAL = priority 1, `eid` is the globally unique event counter).
* The helicopter's Lévy-flight displacement goes through floating-point
  `cos`/`sin`/`round`; it is abstracted as a parameter `hd : HeliDisp` mapping
  the two consumed stream words (angle and uniform draw) to the integer
  displacement pair.  No theorem below depends on its value.
-/

namespace StochasticGame

/-- `numpy.random.randint(lo, hi)`: uniform integer in `[lo, hi)` (high bound
EXCLUSIVE), modelled from an abstract stream word `u`. -/
def randintNp (lo hi : ℤ) (u : ℕ) : ℤ := lo + (u : ℤ) % (hi - lo)

/-- The process-wide numpy random stream: an abstract sequence of integer words
and one of rational words, consumed in program order through a shared cursor. -/
structure RNG where
  natSeq : ℕ → ℕ
  ratSeq : ℕ → ℚ
  idx : ℕ

def RNG.drawNat (r : RNG) : ℕ × RNG :=
  (r.natSeq r.idx, ⟨r.natSeq, r.ratSeq, r.idx + 1⟩)

def RNG.drawRat (r : RNG) : ℚ × RNG :=
  (r.ratSeq r.idx, ⟨r.natSeq, r.ratSeq, r.idx + 1⟩)

/-- `np.random.exponential(scale)`: `scale` times an abstract Exp(1) sample
taken from the stream. -/
def exponentialNp (scale : ℚ) (q : ℚ) : ℚ := scale * q

/-- `GameEngine.wrap_pos`, one coordinate:
`((pos + size) % width + width) % width - size` with `self.width = size * 2`
(set in `GameEngine.__init__`).  Python `%` on a positive divisor agrees with
`Int.emod`. -/
def wrapCoord (size x : ℤ) : ℤ :=
  ((x + size) % (size * 2) + size * 2) % (size * 2) - size

/-- `GameEngine.wrap_pos(posx, posy)` (src/engine.py:390-396). -/
def GameEngine.wrap_pos (size posx posy : ℤ) : ℤ × ℤ :=
  (wrapCoord size posx, wrapCoord size posy)

/-- `GameEngine.random_pos()` (src/engine.py:384-388):
`rand.randint(-size, size), rand.randint(-size, size)` — numpy's high bound is
exclusive. -/
def GameEngine.random_pos (size : ℤ) (u v : ℕ) : ℤ × ℤ :=
  (randintNp (-size) size u, randintNp (-size) size v)

/-- The direction sample of `RWTarget.run()` (src/engine.py:95):
`direction = rand.randint(0, 3)`. -/
def RWTarget.direction (u : ℕ) : ℤ := randintNp 0 3 u

/-- One movement of `RWTarget.run()` after its timeout resumes
(src/engine.py:95-108): branch on the sampled direction, rebound at the `x`
edges, then wrap. -/
def RWTarget.move (size posx posy : ℤ) (u : ℕ) : ℤ × ℤ :=
  let direction := RWTarget.direction u
  let posx := if direction = 0 then posx + 1 else if direction = 1 then posx - 1 else posx
  let posy := if direction = 2 then posy + 1 else if direction = 3 then posy - 1 else posy
  let posx := if posx < -size then size else posx
  let posx := if posx > size then -size else posx
  GameEngine.wrap_pos size posx posy

/-! ### Entity model -/

/-- Python exceptions the engine can raise, by raise site. -/
inductive PyErr
  /-- `run()` reads `self.set_up`, which `__init__` never assigns:
  `AttributeError` on an engine that was never `setup()`. -/
  | attributeErrorSetUp
  /-- The `RuntimeError` of the `if not self.set_up` guard in `run()`. -/
  | runtimeErrorNotSetUp
  /-- `ValueError` when the summed facility resources exceed the limit. -/
  | valueErrorBudget
  /-- `ValueError` of `add_piece` on a duplicate piece id. -/
  | valueErrorDuplicateId
  /-- `ValueError` of the `Helipad` constructor on `alpha` outside `(0, 2]`. -/
  | valueErrorAlpha
  /-- simpy `RuntimeError` when a terminated process is interrupted. -/
  | runtimeErrorInterruptTerminated
deriving DecidableEq

inductive PieceKind
  | base | targetKind | rwTargetKind | helicopterKind
deriving DecidableEq

/-- A `Piece` and its subclasses, as one record: `points` is `some _` exactly
for the classes that set the `points` attribute (`Target`, `RWTarget`), which
is what `hasattr(piece, 'points')` tests in `run()`. -/
structure Piece where
  id : ℤ
  posx : ℤ
  posy : ℤ
  active : Bool
  runnable : Bool
  target : Bool
  points : Option ℤ
  speed : ℚ
  alpha : ℚ
  parent : Option ℤ
  kind : PieceKind
deriving DecidableEq

/-- `Piece.__init__` (src/engine.py:44-52). -/
def Piece.init (id posx posy : ℤ) : Piece :=
  ⟨id, posx, posy, true, false, false, none, 0, 0, none, .base⟩

/-- `Target.__init__` (src/engine.py:63-66). -/
def Target.init (id posx posy points : ℤ) : Piece :=
  { Piece.init id posx posy with points := some points, target := true, kind := .targetKind }

/-- `RWTarget.__init__` (src/engine.py:81-85). -/
def RWTarget.init (id posx posy points : ℤ) (speed : ℚ) : Piece :=
  { Target.init id posx posy points with
      speed := speed, runnable := true, kind := .rwTargetKind }

/-- `Helicopter.__init__` (src/engine.py:115-121); the back-reference to the
spawning facility is its id. -/
def Helicopter.init (id posx posy : ℤ) (alpha speed : ℚ) (parent : ℤ) : Piece :=
  { Piece.init id posx posy with
      runnable := true, alpha := alpha, speed := speed,
      parent := some parent, kind := .helicopterKind }

/-- The points a piece is worth: `self.points`, 0 when the attribute is absent
(it is only read on pieces that have it). -/
def ptsOf (p : Piece) : ℤ := p.points.getD 0

/-- `type(actor).__name__`, as recorded in each `Event`. -/
inductive ActorType
  | pieceA | targetA | rwTargetA | helicopterA | artilleryA | helipadA | reconPlaneA
deriving DecidableEq

def Piece.actorType (p : Piece) : ActorType :=
  match p.kind with
  | .base => .pieceA
  | .targetKind => .targetA
  | .rwTargetKind => .rwTargetA
  | .helicopterKind => .helicopterA

inductive FacKind
  | artilleryKind | helipadKind | reconPlaneKind
deriving DecidableEq

/-- A `Facility` and its subclasses as one record; the subtype-specific rate
fields are fixed at construction. -/
structure Facility where
  id : ℤ
  resources : ℤ
  earned_points : ℤ
  rate : ℚ
  alpha : ℚ
  sample_rate : ℚ
  n_strata : ℤ
  current_stratum : ℤ
  kind : FacKind
deriving DecidableEq

/-- `Facility.active()`: `resources > 0` (src/engine.py:166-167). -/
def Facility.active (f : Facility) : Bool := decide (0 < f.resources)

/-- `Artillery.__init__` (src/engine.py:174-176): `rate = resources`. -/
def Artillery.init (id resources : ℤ) : Facility :=
  ⟨id, resources, 0, (resources : ℚ), 0, 0, 0, 0, .artilleryKind⟩

/-- `Helipad.__init__` (src/engine.py:203-209): `rate = resources * 0.025`,
`ValueError` when the Lévy exponent is outside `(0, 2]`. -/
def Helipad.init (id resources : ℤ) (alpha : ℚ) : Except PyErr Facility :=
  if 0 < alpha ∧ alpha ≤ 2 then
    .ok ⟨id, resources, 0, (resources : ℚ) * (25 / 1000), alpha, 0, 0, 0, .helipadKind⟩
  else .error .valueErrorAlpha

/-- `ReconPlane.__init__` (src/engine.py:231-237): fixed `rate = 1`,
`sample_rate = resources * 0.02`, round-robin stratum index starting at 0. -/
def ReconPlane.init (id resources n_strata : ℤ) : Facility :=
  ⟨id, resources, 0, 1, 0, (resources : ℚ) * (2 / 100), n_strata, 0, .reconPlaneKind⟩

/-- The structured content of an `Event`'s message string. -/
inductive EventMsg
  | destroyed (attackerType : ActorType) (attackerId : ℤ)
  | moved (x y : ℤ)
  | fired (x y : ℤ)
  | firedAntithetic (x y : ℤ)
  | spawned (heliId x y : ℤ)
  | scanBand (y : ℤ)
  | attacked (x y : ℤ)
deriving DecidableEq

/-- An `Event` (src/engine.py:18-33): actor, message, simulated timestamp and a
positional snapshot `id ↦ (posx, posy)` of every piece at emission time.  The
log level only selects the console logger and is not state. -/
structure EventRec where
  actorId : ℤ
  actorType : ActorType
  msg : EventMsg
  time : ℚ
  snapshot : List (ℤ × ℤ × ℤ)
deriving DecidableEq

/-- The `GameEngine` object outside a run: `__init__` plus the attributes
`setup()` assigns.  `set_up = none` models the attribute never having been
assigned (reading it then raises `AttributeError`). -/
structure GameEngineState where
  size : ℤ
  width : ℤ
  resource_limit : ℤ
  next_piece : ℤ
  set_up : Option Bool
  points : ℤ
  pieces : List Piece
  facilities : List Facility
  event_queue : List EventRec

/-- `GameEngine.__init__(size, resource_limit)` (src/engine.py:281-288):
note `self.width = size * 2` and that `self.set_up` is NOT assigned. -/
def GameEngine.init (size resource_limit : ℤ) : GameEngineState :=
  { size := size, width := size * 2, resource_limit := resource_limit,
    next_piece := 1, set_up := none, points := 0,
    pieces := [], facilities := [], event_queue := [] }

/-- `GameEngine.setup(pieces, facilities)` (src/engine.py:290-298). -/
def GameEngine.setup (g : GameEngineState) (pieces : List Piece)
    (facilities : List Facility) : GameEngineState :=
  { g with points := 0, pieces := pieces, facilities := facilities, set_up := some true }

/-! ### Scheduler and process model

One entry per pending simpy event: `start = true` is a process-Initialize
event (URGENT priority 0), `start = false` a Timeout (NORMAL priority 1);
`eid` is simpy's globally unique, monotonically allocated event id, the final
tie-break of the event heap. -/

structure QEntry where
  t : ℚ
  eid : ℕ
  pid : ℕ
  start : Bool
deriving DecidableEq

/-- Which behavior loop a scheduled process runs, and whose. -/
inductive ProcKind
  | rwProc (pieceId : ℤ)
  | heliProc (pieceId : ℤ)
  | artilleryProc (facId : ℤ)
  | helipadProc (facId : ℤ)
  | reconProc (facId : ℤ)
  | endgameProc
deriving DecidableEq

/-- `alive`: the generator is suspended in its loop; `finished`: it ran off the
end (e.g. an `RWTarget` that resumed after being destroyed); `dead`: it was
interrupted by the endgame watcher and has exited.  simpy raises
`RuntimeError` when a `finished` process is interrupted. -/
inductive ProcStatus
  | alive | finished | dead
deriving DecidableEq

structure Proc where
  pid : ℕ
  kind : ProcKind
  status : ProcStatus
deriving DecidableEq

/-- The helicopter's floating-point Lévy displacement
(`round(L·cos θ), round(L·sin θ)` for the two consumed stream words), kept
abstract as a parameter of the whole simulation. -/
abbrev HeliDisp := ℚ → ℚ → ℤ × ℤ

/-- The whole engine state during `run()`: the `GameEngine` object's fields
plus the simpy environment (clock, event queue, process table, event counter)
and the explicit random stream.  `error` carries a raised-and-propagating
Python exception; once set, the simulation is frozen. -/
structure SimState where
  time : ℚ
  size : ℤ
  width : ℤ
  resource_limit : ℤ
  points : ℤ
  possible_points : ℤ
  next_piece : ℤ
  pieces : List Piece
  facilities : List Facility
  event_queue : List EventRec
  queue : List QEntry
  procs : List Proc
  nextEid : ℕ
  nextPid : ℕ
  piece_generators : List ℕ
  facility_generators : List ℕ
  rng : RNG
  error : Option PyErr

/-- `GameEngine.piece_snapshot()` (src/engine.py:359-366). -/
def snapshotOf (ps : List Piece) : List (ℤ × ℤ × ℤ) :=
  ps.map (fun p => (p.id, p.posx, p.posy))

/-- `GameEngine.event(obj, msg)` (src/engine.py:368-375): append an event with
the current time and a full positional snapshot. -/
def pushEvent (s : SimState) (actorId : ℤ) (aty : ActorType) (msg : EventMsg) : SimState :=
  { s with event_queue := s.event_queue ++ [⟨actorId, aty, msg, s.time, snapshotOf s.pieces⟩] }

def setRng (s : SimState) (r : RNG) : SimState := { s with rng := r }

/-- Mutate the piece registered under `pid` (a Python attribute assignment on
the object stored in the `pieces` dict). -/
def updatePiece (ps : List Piece) (pid : ℤ) (f : Piece → Piece) : List Piece :=
  ps.map (fun p => if p.id = pid then f p else p)

def updateFacilityList (fs : List Facility) (fid : ℤ) (f : Facility → Facility) :
    List Facility :=
  fs.map (fun g => if g.id = fid then f g else g)

/-- `facility.earned_points += pts`. -/
def creditEarned (f : Facility) (pts : ℤ) : Facility :=
  { f with earned_points := f.earned_points + pts }

def addEarned (s : SimState) (fid pts : ℤ) : SimState :=
  { s with facilities := updateFacilityList s.facilities fid (fun f => creditEarned f pts) }

def setPiecePos (s : SimState) (pid : ℤ) (nx ny : ℤ) : SimState :=
  { s with pieces := updatePiece s.pieces pid (fun p => { p with posx := nx, posy := ny }) }

/-- `yield self.env.timeout(delay)`: a Timeout event with a fresh eid at
NORMAL priority. -/
def schedTimeout (s : SimState) (pid : ℕ) (delay : ℚ) : SimState :=
  { s with queue := s.queue ++ [⟨s.time + delay, s.nextEid, pid, false⟩],
           nextEid := s.nextEid + 1 }

/-- `env.process(gen)`: an Initialize event with a fresh eid at URGENT
priority, at the current time. -/
def schedStart (s : SimState) (pid : ℕ) : SimState :=
  { s with queue := s.queue ++ [⟨s.time, s.nextEid, pid, true⟩],
           nextEid := s.nextEid + 1 }

def setProcStatus (prs : List Proc) (pid : ℕ) (st : ProcStatus) : List Proc :=
  prs.map (fun pr => if pr.pid = pid then { pr with status := st } else pr)

/-- The generator runs off the end of its loop (`break` / loop condition
false): the process terminates. -/
def finishProc (s : SimState) (pid : ℕ) : SimState :=
  { s with procs := setProcStatus s.procs pid .finished }

/-! ### Attacks -/

/-- The per-piece test of `GameEngine.attack_pos` (src/engine.py:403-405):
`posx == posx and posy == posy` then `active and target`. -/
def attackCond (x y : ℤ) (p : Piece) : Bool :=
  p.posx == x && p.posy == y && p.active && p.target

def deactivateAt (x y : ℤ) (p : Piece) : Piece :=
  if attackCond x y p then { p with active := false } else p

/-- The total points of the pieces `attack_pos(x, y)` destroys. -/
def attackSum (x y : ℤ) : List Piece → ℤ
  | [] => 0
  | p :: ps => (if attackCond x y p then ptsOf p else 0) + attackSum x y ps

def mkDestroyedEvent (aty : ActorType) (aid : ℤ) (t : ℚ)
    (snap : List (ℤ × ℤ × ℤ)) (p : Piece) : EventRec :=
  ⟨p.id, p.actorType, .destroyed aty aid, t, snap⟩

/-- The destruction events one `attack_pos(x, y)` call emits (all with the same
snapshot: hits change only `active` flags, never positions). -/
def destroyedEvts (aty : ActorType) (aid x y : ℤ) (t : ℚ)
    (snap : List (ℤ × ℤ × ℤ)) (ps : List Piece) : List EventRec :=
  (ps.filter (attackCond x y)).map (mkDestroyedEvent aty aid t snap)

/-- `Target.hit(attacker)` (src/engine.py:68-75): deactivate, emit the
destruction event, credit `game.points`. -/
def Target.hit (s : SimState) (p : Piece) (aty : ActorType) (aid : ℤ) : SimState :=
  let s1 := { s with pieces := updatePiece s.pieces p.id (fun q => { q with active := false }) }
  let s2 := pushEvent s1 p.id p.actorType (.destroyed aty aid)
  { s2 with points := s2.points + ptsOf p }

/-- The loop of `GameEngine.attack_pos` over the (pre-captured) dict keys;
each hit credits the piece's points to the attack's return value. -/
def attack_pos_go (aty : ActorType) (aid x y : ℤ) :
    List ℤ → SimState × ℤ → SimState × ℤ
  | [], acc => acc
  | pid :: rest, (s, earned) =>
    match s.pieces.find? (fun p => p.id == pid) with
    | none => attack_pos_go aty aid x y rest (s, earned)
    | some p =>
      if attackCond x y p then
        attack_pos_go aty aid x y rest (Target.hit s p aty aid, earned + ptsOf p)
      else attack_pos_go aty aid x y rest (s, earned)

/-- `GameEngine.attack_pos(attacker, posx, posy)` (src/engine.py:398-408). -/
def GameEngine.attack_pos (s : SimState) (aty : ActorType) (aid x y : ℤ) :
    SimState × ℤ :=
  attack_pos_go aty aid x y (s.pieces.map Piece.id) (s, 0)

/-! ### Process behaviors -/

/-- Loop head of `RWTarget.run` / `Helicopter.run`: `while self.active:` then
`yield self.env.timeout(self.speed)`; a false condition ends the generator. -/
def loopTopPiece (s : SimState) (pid : ℕ) (pieceId : ℤ) : SimState :=
  match s.pieces.find? (fun p => p.id == pieceId) with
  | none => finishProc s pid
  | some p => if p.active then schedTimeout s pid p.speed else finishProc s pid

/-- Loop head of the three facility loops: draw
`np.random.exponential(1/rate)` and suspend for it. -/
def loopTopPoisson (s : SimState) (pid : ℕ) (fid : ℤ) : SimState :=
  match s.facilities.find? (fun f => f.id == fid) with
  | none => finishProc s pid
  | some f =>
    let d := s.rng.drawRat
    schedTimeout (setRng s d.2) pid (exponentialNp (1 / f.rate) d.1)

/-- A process's Initialize event: run the generator from the top of its loop
to its first suspension point. -/
def startProc (s : SimState) (pr : Proc) : SimState :=
  match pr.kind with
  | .rwProc pieceId => loopTopPiece s pr.pid pieceId
  | .heliProc pieceId => loopTopPiece s pr.pid pieceId
  | .artilleryProc fid => loopTopPoisson s pr.pid fid
  | .helipadProc fid => loopTopPoisson s pr.pid fid
  | .reconProc fid => loopTopPoisson s pr.pid fid
  | .endgameProc => schedTimeout s pr.pid 1

/-- `RWTarget.run` resuming from its timeout (src/engine.py:87-109):
`if not active: break`, else sample a direction, step, rebound, wrap, emit
"moved", and loop. -/
def RWTarget.resume (s : SimState) (pid : ℕ) (pieceId : ℤ) : SimState :=
  match s.pieces.find? (fun p => p.id == pieceId) with
  | none => finishProc s pid
  | some p =>
    if p.active then
      let d := s.rng.drawNat
      let s := setRng s d.2
      let mv := RWTarget.move s.size p.posx p.posy d.1
      let s := setPiecePos s pieceId mv.1 mv.2
      let s := pushEvent s pieceId p.actorType (.moved mv.1 mv.2)
      loopTopPiece s pid pieceId
    else finishProc s pid

/-- `Helicopter.run` resuming (src/engine.py:123-139): Lévy jump (abstracted as
`hd`), wrap, emit "moved", attack its own cell, credit the parent facility. -/
def Helicopter.resume (hd : HeliDisp) (s : SimState) (pid : ℕ) (pieceId : ℤ) : SimState :=
  match s.pieces.find? (fun p => p.id == pieceId) with
  | none => finishProc s pid
  | some p =>
    if p.active then
      let d1 := s.rng.drawRat
      let d2 := d1.2.drawRat
      let s := setRng s d2.2
      let j := hd d1.1 d2.1
      let mv := GameEngine.wrap_pos s.size (p.posx + j.1) (p.posy + j.2)
      let s := setPiecePos s pieceId mv.1 mv.2
      let s := pushEvent s pieceId p.actorType (.moved mv.1 mv.2)
      let a := GameEngine.attack_pos s .helicopterA pieceId mv.1 mv.2
      let s := addEarned a.1 (p.parent.getD 0) a.2
      loopTopPiece s pid pieceId
    else finishProc s pid

/-- The firing body of `Artillery.run` (src/engine.py:185-193): one shot at a
uniform-random cell, then — unconditionally — the antithetic shot at the
negated coordinates; both attack returns are credited to `earned_points`. -/
def Artillery.fire (s : SimState) (fid : ℤ) : SimState :=
  let d1 := s.rng.drawNat
  let d2 := d1.2.drawNat
  let s := setRng s d2.2
  let pos := GameEngine.random_pos s.size d1.1 d2.1
  let s := pushEvent s fid .artilleryA (.fired pos.1 pos.2)
  let a1 := GameEngine.attack_pos s .artilleryA fid pos.1 pos.2
  let s := addEarned a1.1 fid a1.2
  let ax := -pos.1
  let ay := -pos.2
  let s := pushEvent s fid .artilleryA (.firedAntithetic ax ay)
  let a2 := GameEngine.attack_pos s .artilleryA fid ax ay
  addEarned a2.1 fid a2.2

/-- `Artillery.run` resuming: fire, then loop back to the next exponential
wait. -/
def Artillery.resume (s : SimState) (pid : ℕ) (fid : ℤ) : SimState :=
  loopTopPoisson (Artillery.fire s fid) pid fid

/-- `Helipad.run` resuming (src/engine.py:211-222): spawn a `Helicopter` at a
uniform-random cell with a fresh id through `add_piece`
(src/engine.py:300-308), which schedules its behavior process; a duplicate id
raises `ValueError`. -/
def Helipad.resume (s : SimState) (pid : ℕ) (fid : ℤ) : SimState :=
  match s.facilities.find? (fun f => f.id == fid) with
  | none => finishProc s pid
  | some f =>
    let d1 := s.rng.drawNat
    let d2 := d1.2.drawNat
    let s := setRng s d2.2
    let pos := GameEngine.random_pos s.size d1.1 d2.1
    let hid := s.next_piece
    let s := { s with next_piece := s.next_piece + 1 }
    let h := Helicopter.init hid pos.1 pos.2 f.alpha 1 fid
    if (s.pieces.map Piece.id).contains hid then
      { s with error := some .valueErrorDuplicateId }
    else
      let newPid := s.nextPid
      let s := { s with pieces := s.pieces ++ [h] }
      let s := { s with procs := s.procs ++ [Proc.mk newPid (.heliProc hid) .alive] }
      let s := { s with nextPid := newPid + 1 }
      let s := { s with piece_generators := s.piece_generators ++ [newPid] }
      let s := schedStart s newPid
      let s := pushEvent s fid .helipadA (.spawned hid pos.1 pos.2)
      loopTopPoisson s pid fid

/-- `range(-size, size + 1)`. -/
def intRange (lo hi : ℤ) : List ℤ :=
  (List.range (hi + 1 - lo).toNat).map (fun k => lo + (k : ℤ))

/-- The per-column loop of `ReconPlane.run` (src/engine.py:267-271): one
uniform draw per column, attack on success. -/
def ReconPlane.scanCols (fid scan_y : ℤ) (sample_rate : ℚ) :
    List ℤ → SimState → SimState
  | [], s => s
  | i :: rest, s =>
    let d := s.rng.drawRat
    let s := setRng s d.2
    if d.1 < sample_rate then
      let s := pushEvent s fid .reconPlaneA (.attacked i scan_y)
      let a := GameEngine.attack_pos s .reconPlaneA fid i scan_y
      let s := addEarned a.1 fid a.2
      ReconPlane.scanCols fid scan_y sample_rate rest s
    else ReconPlane.scanCols fid scan_y sample_rate rest s

/-- `ReconPlane.run` resuming (src/engine.py:245-271): advance the round-robin
stratum, pick a uniform row in the band, Bernoulli-sample every column. -/
def ReconPlane.resume (s : SimState) (pid : ℕ) (fid : ℤ) : SimState :=
  match s.facilities.find? (fun f => f.id == fid) with
  | none => finishProc s pid
  | some f =>
    let band_height := (2 * s.size) / f.n_strata
    let st := f.current_stratum
    let s := { s with facilities := updateFacilityList s.facilities fid (fun g => { g with current_stratum := (st + 1) % g.n_strata }) }
    let y_min := -s.size + st * band_height
    let y_max := y_min + band_height
    let d := s.rng.drawNat
    let s := setRng s d.2
    let scan_y := randintNp y_min (y_max + 1) d.1
    let s := pushEvent s fid .reconPlaneA (.scanBand scan_y)
    let s := ReconPlane.scanCols fid scan_y f.sample_rate (intRange (-s.size) s.size) s
    loopTopPoisson s pid fid

/-- `generator.interrupt()` over a list of processes: an interrupted waiting
process exits its loop (dead); interrupting an already-terminated process is a
simpy `RuntimeError`, which propagates out of the endgame watcher. -/
def interruptAll (s : SimState) : List ℕ → SimState
  | [] => s
  | pid :: rest =>
    match s.procs.find? (fun pr => pr.pid == pid) with
    | none => interruptAll s rest
    | some pr =>
      if pr.status = .finished then { s with error := some .runtimeErrorInterruptTerminated }
      else interruptAll { s with procs := setProcStatus s.procs pid .dead } rest

/-- `GameEngine.endgame_check` resuming (src/engine.py:340-357): if some
active target remains, wait another unit; otherwise interrupt every facility
process, then every piece process, and stop. -/
def endgameResume (s : SimState) (pid : ℕ) : SimState :=
  if s.pieces.any (fun p => p.target && p.active) then schedTimeout s pid 1
  else
    let s1 := interruptAll s s.facility_generators
    if s1.error.isSome then s1
    else
      let s2 := interruptAll s1 s.piece_generators
      if s2.error.isSome then s2
      else finishProc s2 pid

/-- A process's Timeout event firing: resume its loop body. -/
def resumeProc (hd : HeliDisp) (s : SimState) (pr : Proc) : SimState :=
  match pr.kind with
  | .rwProc pieceId => RWTarget.resume s pr.pid pieceId
  | .heliProc pieceId => Helicopter.resume hd s pr.pid pieceId
  | .artilleryProc fid => Artillery.resume s pr.pid fid
  | .helipadProc fid => Helipad.resume s pr.pid fid
  | .reconProc fid => ReconPlane.resume s pr.pid fid
  | .endgameProc => endgameResume s pr.pid

/-! ### The event loop -/

/-- simpy's heap key: `(time, priority, eid)`, URGENT(0) for Initialize,
NORMAL(1) for Timeout. -/
def QEntry.key (e : QEntry) : ℚ × ℕ × ℕ := (e.t, (if e.start then 0 else 1), e.eid)

/-- Strict lexicographic order on heap keys. -/
def keyLt (a b : ℚ × ℕ × ℕ) : Prop :=
  a.1 < b.1 ∨ (a.1 = b.1 ∧ (a.2.1 < b.2.1 ∨ (a.2.1 = b.2.1 ∧ a.2.2 < b.2.2)))

instance (a b : ℚ × ℕ × ℕ) : Decidable (keyLt a b) :=
  inferInstanceAs (Decidable
    (a.1 < b.1 ∨ (a.1 = b.1 ∧ (a.2.1 < b.2.1 ∨ (a.2.1 = b.2.1 ∧ a.2.2 < b.2.2)))))

/-- The entry simpy's `heappop` returns: a queue entry no other entry strictly
precedes. -/
def PopsTo (s : SimState) (e : QEntry) : Prop :=
  e ∈ s.queue ∧ ∀ e2 ∈ s.queue, ¬ keyLt e2.key e.key

instance (s : SimState) (e : QEntry) : Decidable (PopsTo s e) :=
  inferInstanceAs (Decidable (e ∈ s.queue ∧ ∀ e2 ∈ s.queue, ¬ keyLt e2.key e.key))

/-- The key-minimal queue entry (the one `heappop` would return). -/
def minEntry : List QEntry → Option QEntry
  | [] => none
  | e :: rest =>
    match minEntry rest with
    | none => some e
    | some m => if keyLt m.key e.key then some m else some e

/-- `self.env.run(until=100)` (src/engine.py:334). -/
def simHorizon : ℚ := 100

/-- Remove the popped entry and advance the clock to its scheduled time. -/
def popEntry (s : SimState) (e : QEntry) : SimState :=
  { s with queue := s.queue.erase e, time := e.t }

/-- Process one popped event: a no-op when its process is no longer alive (a
defused timeout of an interrupted or terminated process), else run the
generator. -/
def applyEntry (hd : HeliDisp) (s : SimState) (e : QEntry) : SimState :=
  let s := popEntry s e
  match s.procs.find? (fun pr => pr.pid == e.pid) with
  | none => s
  | some pr =>
    if pr.status = .alive then
      (if e.start then startProc s pr else resumeProc hd s pr)
    else s

/-- One iteration of the simpy event loop: pop the key-minimal entry and
process it, unless an exception is propagating, the queue is empty, or the
horizon is reached. -/
def simStep (hd : HeliDisp) (s : SimState) : SimState :=
  if s.error.isSome then s
  else
    match minEntry s.queue with
    | none => s
    | some e => if e.t < simHorizon then applyEntry hd s e else s

def simStepN (hd : HeliDisp) : ℕ → SimState → SimState
  | 0, s => s
  | n + 1, s => simStepN hd n (simStep hd s)

/-- One engine step as a RELATION: some entry that nothing strictly precedes
is popped and processed.  `simStep` picks `minEntry`; the determinism theorem
shows the relation is single-valued, i.e. the tie-break leaves no choice. -/
def SimStepRel (hd : HeliDisp) (s s2 : SimState) : Prop :=
  s.error = none ∧ ∃ e, PopsTo s e ∧ e.t < simHorizon ∧ s2 = applyEntry hd s e

/-! ### `GameEngine.run` -/

/-- `sum over pieces with the points attribute` (src/engine.py:327-328,
`hasattr(piece, 'points')`). -/
def sumPoints : List Piece → ℤ
  | [] => 0
  | p :: ps => (match p.points with | some v => v | none => 0) + sumPoints ps

/-- `sum(f.resources for f in self.facilities.values())` (src/engine.py:320). -/
def sumResources : List Facility → ℤ
  | [] => 0
  | f :: fs => f.resources + sumResources fs

/-- Which behavior generator a runnable piece provides (`Piece.run` of the two
runnable subclasses; the base class raises `NotImplementedError` and is never
constructed runnable). -/
def procKindOfPiece? (p : Piece) : Option ProcKind :=
  if p.runnable then
    match p.kind with
    | .rwTargetKind => some (.rwProc p.id)
    | .helicopterKind => some (.heliProc p.id)
    | _ => none
  else none

def procKindOfFacility (f : Facility) : ProcKind :=
  match f.kind with
  | .artilleryKind => .artilleryProc f.id
  | .helipadKind => .helipadProc f.id
  | .reconPlaneKind => .reconProc f.id

/-- `env.process(...)` at registration time: new process table entry, its
Initialize event, and the generator-list append (`some true`:
`piece_generators`, `some false`: `facility_generators`, `none`: the endgame
watcher, which is in neither list). -/
def registerProc (s : SimState) (k : ProcKind) (lst : Option Bool) : SimState :=
  let pid := s.nextPid
  let s := { s with procs := s.procs ++ [Proc.mk pid k .alive], nextPid := pid + 1 }
  let s :=
    match lst with
    | some true => { s with piece_generators := s.piece_generators ++ [pid] }
    | some false => { s with facility_generators := s.facility_generators ++ [pid] }
    | none => s
  schedStart s pid

/-- The piece loop of `run()` (src/engine.py:324-326): one process per
runnable piece, in registry order. -/
def registerPieces : List Piece → SimState → SimState
  | [], s => s
  | p :: rest, s =>
    match procKindOfPiece? p with
    | some k => registerPieces rest (registerProc s k (some true))
    | none => registerPieces rest s

/-- The facility loop of `run()` (src/engine.py:329-331): one process per
`active()` facility, in registry order. -/
def registerFacilities : List Facility → SimState → SimState
  | [], s => s
  | f :: rest, s =>
    if f.active then registerFacilities rest (registerProc s (procKindOfFacility f) (some false))
    else registerFacilities rest s

/-- The simulation state `run()` has built when `env.run(until=100)` starts:
`possible_points` summed over point-bearing pieces, processes registered in
order (pieces, facilities, endgame watcher). -/
def initSim (g : GameEngineState) (rng : RNG) : SimState :=
  let s : SimState :=
    { time := 0, size := g.size, width := g.width, resource_limit := g.resource_limit,
      points := g.points, possible_points := sumPoints g.pieces, next_piece := g.next_piece,
      pieces := g.pieces, facilities := g.facilities, event_queue := g.event_queue,
      queue := [], procs := [], nextEid := 0, nextPid := 0,
      piece_generators := [], facility_generators := [], rng := rng, error := none }
  let s := registerPieces g.pieces s
  let s := registerFacilities g.facilities s
  registerProc s .endgameProc none

/-- Modelled from the spec: the run-result record
`{ finalPoints, possiblePoints, perFacility: facilityId → (earnedPoints,
resources) }` that §6 says `run()` returns to the optimization layer.
`GameEngine.run` in src/engine.py has no `return` statement, so the model's
return channel (`Option RunResult`) always carries `none`. -/
structure RunResult where
  finalPoints : ℤ
  possiblePoints : ℤ
  perFacility : List (ℤ × ℤ × ℤ)
deriving DecidableEq

/-- The per-facility data `run()` logs at the end (src/engine.py:336-338 and
`Facility.print_stats`): `(id, earned_points, resources)` for each `active()`
facility. -/
def GameEngine.print_stats_data (s : SimState) : List (ℤ × ℤ × ℤ) :=
  (s.facilities.filter Facility.active).map (fun f => (f.id, f.earned_points, f.resources))

/-- `GameEngine.run()` (src/engine.py:310-338).  Reading the never-initialized
`self.set_up` on a fresh engine raises `AttributeError`; the `RuntimeError`
guard underneath is unreachable.  After the budget check the simulation runs
(fuel-bounded) and a propagating exception is re-raised by `env.run`; on
normal completion the function falls off its end — its value is Python's
`None`, modelled as the `Option.none` in the second component. -/
def GameEngine.run (hd : HeliDisp) (g : GameEngineState) (rng : RNG) (fuel : ℕ) :
    Except PyErr (SimState × Option RunResult) :=
  match g.set_up with
  | none => .error .attributeErrorSetUp
  | some false => .error .runtimeErrorNotSetUp
  | some true =>
    let total_cost := sumResources g.facilities
    if g.resource_limit < total_cost then .error .valueErrorBudget
    else
      let s := simStepN hd fuel (initSim g rng)
      match s.error with
      | some e => .error e
      | none => .ok (s, none)

/-! ### Invariant state and example configurations -/

/-- The point mass still on the board: the summed `points` of the active
point-bearing pieces. -/
def activePts : List Piece → ℤ
  | [] => 0
  | p :: ps => (if p.active then ptsOf p else 0) + activePts ps

/-- The scoring invariant: earned plus remaining point mass equals
`possible_points`, piece ids are distinct (a Python dict), and every piece's
point value is nonnegative. -/
def PieceInv (s : SimState) : Prop :=
  s.points + activePts s.pieces = s.possible_points ∧
  (s.pieces.map Piece.id).Nodup ∧
  ∀ p ∈ s.pieces, 0 ≤ ptsOf p

instance (s : SimState) : Decidable (PieceInv s) :=
  inferInstanceAs (Decidable (s.points + activePts s.pieces = s.possible_points ∧
    (s.pieces.map Piece.id).Nodup ∧ ∀ p ∈ s.pieces, 0 ≤ ptsOf p))

/-- A fixed trivial helicopter displacement, for concrete instantiations. -/
def hd0 : HeliDisp := fun _ _ => (0, 0)

/-- A concrete all-zero random stream, for concrete instantiations. -/
def rng0 : RNG := ⟨fun _ => 0, fun _ => 0, 0⟩

/-- A tiny configured game: one static 1-point target, one artillery with no
resources (inactive), on a half-width-20 board with limit 50. -/
def gEx : GameEngineState :=
  GameEngine.setup (GameEngine.init 20 50) [Target.init 100010 3 4 1] [Artillery.init 1 0]

/-- The same game with an over-budget artillery (60 > 50). -/
def gOver : GameEngineState :=
  GameEngine.setup (GameEngine.init 20 50) [Target.init 100010 3 4 1] [Artillery.init 1 60]

/-- The initial simulation state of `gEx`: only the endgame watcher is
scheduled. -/
def sEx : SimState := initSim gEx rng0

/-- The single queue entry of `sEx`: the endgame watcher's Initialize event. -/
def eEx : QEntry := ⟨0, 0, 0, true⟩

/-- simpy's event-id discipline: every queued event's eid was allocated below
the monotone counter, so eids in the queue are pairwise distinct. -/
def EidsOk (s : SimState) : Prop :=
  (∀ e ∈ s.queue, e.eid < s.nextEid) ∧ (s.queue.map QEntry.eid).Nodup

/-- What one engine step preserves: `possible_points` is constant, the scoring
invariant is maintained, and the event-id discipline is maintained. -/
def StepOk (s s2 : SimState) : Prop :=
  s2.possible_points = s.possible_points ∧ (PieceInv s → PieceInv s2) ∧
  (EidsOk s → EidsOk s2)

/-- The drawn x coordinate of one artillery firing: the first `randint` of
`random_pos()`. -/
def fireDrawX (s : SimState) : ℤ := randintNp (-s.size) s.size (s.rng.natSeq s.rng.idx)

/-- The drawn y coordinate of one artillery firing: the second `randint` of
`random_pos()`. -/
def fireDrawY (s : SimState) : ℤ :=
  randintNp (-s.size) s.size (s.rng.natSeq (s.rng.idx + 1))

/-- The state inside `Artillery.fire` just before the first attack call (both
draws consumed, "fired" event emitted). -/
def fireState1 (s : SimState) (fid : ℤ) : SimState :=
  pushEvent (setRng s s.rng.drawNat.2.drawNat.2) fid .artilleryA
    (.fired (fireDrawX s) (fireDrawY s))

/-- The state inside `Artillery.fire` just before the second (antithetic)
attack call: first attack applied and credited, antithetic "fired" event
emitted. -/
def fireState3 (s : SimState) (fid : ℤ) : SimState :=
  pushEvent
    (addEarned
      (GameEngine.attack_pos (fireState1 s fid) .artilleryA fid
        (fireDrawX s) (fireDrawY s)).1 fid
      (GameEngine.attack_pos (fireState1 s fid) .artilleryA fid
        (fireDrawX s) (fireDrawY s)).2)
    fid .artilleryA (.firedAntithetic (-(fireDrawX s)) (-(fireDrawY s)))

/-! ### Properties of the pure coordinate functions -/

theorem wrapCoord_eq (size x : ℤ) (h : 0 < size) :
    wrapCoord size x = (x + size) % (size * 2) - size := by
  have hw : (0 : ℤ) < size * 2 := by omega
  have h0 : 0 ≤ (x + size) % (size * 2) := Int.emod_nonneg _ (by omega)
  have h1 : (x + size) % (size * 2) < size * 2 := Int.emod_lt_of_pos _ hw
  unfold wrapCoord
  have h2 : ((x + size) % (size * 2) + size * 2) % (size * 2) = (x + size) % (size * 2) := by
    have h3 : ((x + size) % (size * 2) + size * 2) % (size * 2) =
        (x + size) % (size * 2) % (size * 2) := by simp
    rw [h3, Int.emod_eq_of_lt h0 h1]
  rw [h2]

theorem wrapCoord_bounds (size x : ℤ) (h : 0 < size) :
    -size ≤ wrapCoord size x ∧ wrapCoord size x ≤ size - 1 := by
  have hw : (0 : ℤ) < size * 2 := by omega
  have h0 : 0 ≤ (x + size) % (size * 2) := Int.emod_nonneg _ (by omega)
  have h1 : (x + size) % (size * 2) < size * 2 := Int.emod_lt_of_pos _ hw
  rw [wrapCoord_eq size x h]
  omega

theorem wrapCoord_fixed (size x : ℤ) (h : 0 < size)
    (h1 : -size ≤ x) (h2 : x ≤ size - 1) : wrapCoord size x = x := by
  rw [wrapCoord_eq size x h, Int.emod_eq_of_lt (by omega) (by omega)]
  omega

/-- C7: for every integer coordinate pair (in particular for all
`|x|, |y| ≤ k·size`) both components of `wrap_pos` lie in `[-size, size]`
(in fact in `[-size, size-1]`), and `wrap_pos` is idempotent. -/
theorem wrap_pos_bounded_idempotent (size x y : ℤ) (h : 0 < size) :
    (-size ≤ (GameEngine.wrap_pos size x y).1 ∧ (GameEngine.wrap_pos size x y).1 ≤ size) ∧
    (-size ≤ (GameEngine.wrap_pos size x y).2 ∧ (GameEngine.wrap_pos size x y).2 ≤ size) ∧
    GameEngine.wrap_pos size (GameEngine.wrap_pos size x y).1 (GameEngine.wrap_pos size x y).2 =
      GameEngine.wrap_pos size x y := by
  have hx := wrapCoord_bounds size x h
  have hy := wrapCoord_bounds size y h
  unfold GameEngine.wrap_pos
  refine ⟨⟨hx.1, by omega⟩, ⟨hy.1, by omega⟩, ?_⟩
  simp only [Prod.mk.injEq]
  exact ⟨wrapCoord_fixed size _ h hx.1 hx.2, wrapCoord_fixed size _ h hy.1 hy.2⟩

theorem wrap_pos_bounded_idempotent_witness :
    ((0 : ℤ) < 100) ∧
    ((-100 ≤ (GameEngine.wrap_pos 100 137 (-250)).1 ∧ (GameEngine.wrap_pos 100 137 (-250)).1 ≤ 100) ∧
     (-100 ≤ (GameEngine.wrap_pos 100 137 (-250)).2 ∧ (GameEngine.wrap_pos 100 137 (-250)).2 ≤ 100) ∧
     GameEngine.wrap_pos 100 (GameEngine.wrap_pos 100 137 (-250)).1
         (GameEngine.wrap_pos 100 137 (-250)).2 = GameEngine.wrap_pos 100 137 (-250)) :=
  ⟨by norm_num, wrap_pos_bounded_idempotent 100 137 (-250) (by norm_num)⟩

/-- C6 counterexample: on the default board (`size = 100`),
`wrap_pos(size+1, 0) = (-99, 0)`, not `(-size, 0) = (-100, 0)` as the claim
states: the board period is `width = size*2`, not `2*size+1`. -/
theorem wrap_pos_seam_counterexample :
    GameEngine.wrap_pos 100 101 0 ≠ (-100, 0) := by decide

/-- C6 (amended): `wrap_pos` maps any integer pair onto `[-size, size-1]` by
modular wraparound with period `width = size*2` per axis (the engine's `width`
attribute is `size*2`, not `2*size+1`); in particular
`wrap_pos(size+1, y) = (1-size, wrapped y)` (and `size` itself wraps to
`-size`). -/
theorem wrap_pos_seam_amended (size y : ℤ) (h : 0 < size) :
    GameEngine.wrap_pos size (size + 1) y = (1 - size, wrapCoord size y) ∧
    (∀ x, -size ≤ wrapCoord size x ∧ wrapCoord size x ≤ size - 1) ∧
    wrapCoord size size = -size ∧
    (GameEngine.init size 100).width = size * 2 := by
  refine ⟨?_, fun x => wrapCoord_bounds size x h, ?_, rfl⟩
  · unfold GameEngine.wrap_pos
    rw [wrapCoord_eq size _ h]
    have h4 : size + 1 + size = 1 + size * 2 := by ring
    have h5 : (1 + size * 2) % (size * 2) = 1 % (size * 2) := by simp
    rw [h4, h5, Int.emod_eq_of_lt (by omega) (by omega)]
  · rw [wrapCoord_eq size _ h]
    have h4 : size + size = 0 + size * 2 := by ring
    have h5 : (0 + size * 2) % (size * 2) = 0 % (size * 2) := by simp
    rw [h4, h5, Int.emod_eq_of_lt (by omega) (by omega)]
    omega

theorem wrap_pos_seam_amended_witness :
    ((0 : ℤ) < 100) ∧
    (GameEngine.wrap_pos 100 (100 + 1) 7 = (1 - 100, wrapCoord 100 7) ∧
     (∀ x, -100 ≤ wrapCoord 100 x ∧ wrapCoord 100 x ≤ 100 - 1) ∧
     wrapCoord 100 100 = -100 ∧
     (GameEngine.init 100 100).width = 100 * 2) :=
  ⟨by norm_num, wrap_pos_seam_amended 100 7 (by norm_num)⟩

/-- C8: `rand.randint(0, 3)` is high-exclusive, so the sampled direction is
always one of `{0, 1, 2}` and is never `3`: the `posy -= 1` branch of
`RWTarget.run()` is unreachable and the walk is NOT uniform over the four
directions — it never moves in `-y`. -/
theorem rwtarget_direction_never_minus_y (u : ℕ) :
    (RWTarget.direction u = 0 ∨ RWTarget.direction u = 1 ∨ RWTarget.direction u = 2) ∧
    RWTarget.direction u ≠ 3 := by
  simp only [RWTarget.direction, randintNp]
  omega

/-- C9 counterexample: on the default board (`size = 100`), the coordinate
value `size = 100` is never a possible outcome of `random_pos` on either axis
(`rand.randint(-size, size)` excludes its high bound). -/
theorem random_pos_never_size_counterexample :
    ¬ ∃ u v : ℕ, (GameEngine.random_pos 100 u v).1 = 100 := by
  rintro ⟨u, v, h⟩
  simp only [GameEngine.random_pos, randintNp] at h
  norm_num at h
  omega

/-- C9 (amended): `random_pos` is uniform over `[-size, size-1] × [-size, size-1]`:
both components always lie in `[-size, size-1]`, and every pair in that square
is a possible outcome; the value `size` itself is excluded by numpy's
high-exclusive `randint`. -/
theorem random_pos_range_amended (size : ℤ) (h : 0 < size) :
    (∀ u v : ℕ,
      -size ≤ (GameEngine.random_pos size u v).1 ∧ (GameEngine.random_pos size u v).1 ≤ size - 1 ∧
      -size ≤ (GameEngine.random_pos size u v).2 ∧ (GameEngine.random_pos size u v).2 ≤ size - 1) ∧
    (∀ a b : ℤ, -size ≤ a → a ≤ size - 1 → -size ≤ b → b ≤ size - 1 →
      ∃ u v : ℕ, GameEngine.random_pos size u v = (a, b)) := by
  constructor
  · intro u v
    have hu : 0 ≤ (u : ℤ) % (size - -size) := Int.emod_nonneg _ (by omega)
    have hu2 : (u : ℤ) % (size - -size) < size - -size := Int.emod_lt_of_pos _ (by omega)
    have hv : 0 ≤ (v : ℤ) % (size - -size) := Int.emod_nonneg _ (by omega)
    have hv2 : (v : ℤ) % (size - -size) < size - -size := Int.emod_lt_of_pos _ (by omega)
    simp only [GameEngine.random_pos, randintNp]
    omega
  · intro a b ha1 ha2 hb1 hb2
    refine ⟨(a + size).toNat, (b + size).toNat, ?_⟩
    simp only [GameEngine.random_pos, randintNp]
    rw [Int.toNat_of_nonneg (by omega), Int.toNat_of_nonneg (by omega),
      Int.emod_eq_of_lt (by omega) (by omega), Int.emod_eq_of_lt (by omega) (by omega)]
    simp only [Prod.mk.injEq]
    constructor <;> omega

theorem random_pos_range_amended_witness :
    ((0 : ℤ) < 100) ∧
    ((∀ u v : ℕ,
      -100 ≤ (GameEngine.random_pos 100 u v).1 ∧ (GameEngine.random_pos 100 u v).1 ≤ 100 - 1 ∧
      -100 ≤ (GameEngine.random_pos 100 u v).2 ∧ (GameEngine.random_pos 100 u v).2 ≤ 100 - 1) ∧
    (∀ a b : ℤ, -100 ≤ a → a ≤ 100 - 1 → -100 ≤ b → b ≤ 100 - 1 →
      ∃ u v : ℕ, GameEngine.random_pos 100 u v = (a, b))) :=
  ⟨by norm_num, random_pos_range_amended 100 (by norm_num)⟩

/-! ### Preservation of the scoring invariant -/

theorem StepOk_refl (s : SimState) : StepOk s s := ⟨rfl, id, id⟩

theorem StepOk_trans {s t u : SimState} (h1 : StepOk s t) (h2 : StepOk t u) : StepOk s u :=
  ⟨h2.1.trans h1.1, fun hi => h2.2.1 (h1.2.1 hi), fun hi => h2.2.2 (h1.2.2 hi)⟩

theorem StepOk_of_eq {s s2 : SimState} (h1 : s2.pieces = s.pieces)
    (h2 : s2.points = s.points) (h3 : s2.possible_points = s.possible_points)
    (h4 : s2.queue = s.queue) (h5 : s2.nextEid = s.nextEid) :
    StepOk s s2 := by
  unfold StepOk PieceInv EidsOk
  rw [h1, h2, h3, h4, h5]
  exact ⟨rfl, id, id⟩

theorem activePts_append (xs ys : List Piece) :
    activePts (xs ++ ys) = activePts xs + activePts ys := by
  induction xs with
  | nil => simp [activePts]
  | cons p rest ih =>
    show (if p.active then ptsOf p else 0) + activePts (rest ++ ys) = _
    rw [ih]
    show _ = (if p.active then ptsOf p else 0) + activePts rest + activePts ys
    ring

theorem activePts_nonneg (ps : List Piece) (h : ∀ p ∈ ps, 0 ≤ ptsOf p) :
    0 ≤ activePts ps := by
  induction ps with
  | nil => simp [activePts]
  | cons p rest ih =>
    have hp := h p (List.mem_cons_self p rest)
    have hr := ih (fun q hq => h q (List.mem_cons_of_mem p hq))
    simp only [activePts]
    by_cases hb : p.active <;> simp [hb] <;> omega

theorem activePts_map_invar (ps : List Piece) (g : Piece → Piece)
    (h : ∀ p ∈ ps, (g p).active = p.active ∧ ptsOf (g p) = ptsOf p) :
    activePts (ps.map g) = activePts ps := by
  induction ps with
  | nil => rfl
  | cons p rest ih =>
    have hp := h p (List.mem_cons_self p rest)
    simp only [List.map, activePts, hp.1, hp.2,
      ih (fun q hq => h q (List.mem_cons_of_mem p hq))]

theorem ids_map_invar (ps : List Piece) (g : Piece → Piece)
    (h : ∀ p ∈ ps, (g p).id = p.id) :
    (ps.map g).map Piece.id = ps.map Piece.id := by
  induction ps with
  | nil => rfl
  | cons p rest ih =>
    simp only [List.map, h p (List.mem_cons_self p rest),
      ih (fun q hq => h q (List.mem_cons_of_mem p hq))]

theorem nonneg_map_invar (ps : List Piece) (g : Piece → Piece)
    (h : ∀ p ∈ ps, ptsOf (g p) = ptsOf p) (h2 : ∀ p ∈ ps, 0 ≤ ptsOf p) :
    ∀ p ∈ ps.map g, 0 ≤ ptsOf p := by
  intro q hq
  rcases List.mem_map.mp hq with ⟨p, hp, rfl⟩
  rw [h p hp]
  exact h2 p hp

theorem StepOk_of_piecewise {s s2 : SimState} (h2 : s2.points = s.points)
    (h3 : s2.possible_points = s.possible_points)
    (hap : activePts s2.pieces = activePts s.pieces)
    (hids : (s.pieces.map Piece.id).Nodup → (s2.pieces.map Piece.id).Nodup)
    (hnn : (∀ p ∈ s.pieces, 0 ≤ ptsOf p) → ∀ p ∈ s2.pieces, 0 ≤ ptsOf p)
    (hq : s2.queue = s.queue) (hne : s2.nextEid = s.nextEid) :
    StepOk s s2 := by
  refine ⟨h3, fun hi => ⟨?_, hids hi.2.1, hnn hi.2.2⟩, fun he => ?_⟩
  · rw [h2, h3, hap]; exact hi.1
  · unfold EidsOk at he ⊢
    rw [hq, hne]; exact he

/-- Scheduling a fresh event (Timeout or Initialize) keeps every queued eid
below the bumped counter and keeps the eids distinct. -/
theorem eidsOk_push (s : SimState) (e2 : QEntry) (he : e2.eid = s.nextEid)
    (h : EidsOk s) :
    (∀ e ∈ s.queue ++ [e2], e.eid < s.nextEid + 1) ∧
    ((s.queue ++ [e2]).map QEntry.eid).Nodup := by
  obtain ⟨hb, hn⟩ := h
  constructor
  · intro e hmem
    rcases List.mem_append.mp hmem with h1 | h1
    · exact Nat.lt_trans (hb e h1) (Nat.lt_succ_self _)
    · rcases List.mem_singleton.mp h1 with rfl
      rw [he]
      exact Nat.lt_succ_self _
  · rw [List.map_append, List.map_cons, List.map_nil, List.nodup_append]
    refine ⟨hn, List.nodup_singleton _, ?_⟩
    intro a ha hmem
    rcases List.mem_singleton.mp hmem with rfl
    rcases List.mem_map.mp ha with ⟨e3, he3, heq⟩
    have := hb e3 he3
    omega

theorem stepOk_pushEvent (s : SimState) (a : ℤ) (aty : ActorType) (m : EventMsg) :
    StepOk s (pushEvent s a aty m) := StepOk_of_eq rfl rfl rfl rfl rfl

theorem stepOk_setRng (s : SimState) (r : RNG) : StepOk s (setRng s r) :=
  StepOk_of_eq rfl rfl rfl rfl rfl

theorem stepOk_schedTimeout (s : SimState) (pid : ℕ) (d : ℚ) :
    StepOk s (schedTimeout s pid d) :=
  ⟨rfl, fun h => h, fun h => eidsOk_push s _ rfl h⟩

theorem stepOk_schedStart (s : SimState) (pid : ℕ) :
    StepOk s (schedStart s pid) :=
  ⟨rfl, fun h => h, fun h => eidsOk_push s _ rfl h⟩

theorem stepOk_finishProc (s : SimState) (pid : ℕ) :
    StepOk s (finishProc s pid) := StepOk_of_eq rfl rfl rfl rfl rfl

theorem stepOk_addEarned (s : SimState) (fid pts : ℤ) :
    StepOk s (addEarned s fid pts) := StepOk_of_eq rfl rfl rfl rfl rfl

theorem stepOk_popEntry (s : SimState) (e : QEntry) :
    StepOk s (popEntry s e) := by
  refine ⟨rfl, fun h => h, fun h => ⟨?_, ?_⟩⟩
  · intro x hx
    exact h.1 x (List.mem_of_mem_erase hx)
  · exact h.2.sublist (List.Sublist.map QEntry.eid (List.erase_sublist e s.queue))

theorem stepOk_setPiecePos (s : SimState) (pid : ℤ) (nx ny : ℤ) :
    StepOk s (setPiecePos s pid nx ny) := by
  refine StepOk_of_piecewise rfl rfl ?_ ?_ ?_ rfl rfl
  · exact activePts_map_invar _ _ (fun p _ => by by_cases hid : p.id = pid <;> simp [hid, ptsOf])
  · intro hn
    have h2 := ids_map_invar s.pieces
      (fun p => if p.id = pid then { p with posx := nx, posy := ny } else p)
      (fun p _ => by by_cases hid : p.id = pid <;> simp [hid])
    show ((updatePiece s.pieces pid _).map Piece.id).Nodup
    unfold updatePiece
    rw [h2]; exact hn
  · exact nonneg_map_invar _ _ (fun p _ => by by_cases hid : p.id = pid <;> simp [hid, ptsOf])

theorem updatePiece_of_not_mem (ps : List Piece) (pid : ℤ) (f : Piece → Piece)
    (h : ∀ p ∈ ps, p.id ≠ pid) : updatePiece ps pid f = ps := by
  induction ps with
  | nil => rfl
  | cons q rest ih =>
    simp only [updatePiece, List.map] at ih ⊢
    rw [if_neg (h q (List.mem_cons_self q rest)),
      ih (fun p hp => h p (List.mem_cons_of_mem q hp))]

theorem activePts_deactivate (ps : List Piece) (p : Piece) (hmem : p ∈ ps)
    (hnd : (ps.map Piece.id).Nodup) (hact : p.active = true) :
    activePts (updatePiece ps p.id (fun q => { q with active := false })) =
      activePts ps - ptsOf p := by
  induction ps with
  | nil => cases hmem
  | cons q rest ih =>
    simp only [List.map, List.nodup_cons] at hnd
    rcases List.mem_cons.mp hmem with rfl | hmem2
    · have hrest : ∀ r ∈ rest, r.id ≠ p.id := by
        intro r hr he
        exact hnd.1 (he ▸ List.mem_map_of_mem Piece.id hr)
      simp only [updatePiece, List.map, if_pos rfl]
      have h2 : List.map (fun q => if q.id = p.id then { q with active := false } else q) rest
          = updatePiece rest p.id (fun q => { q with active := false }) := rfl
      rw [h2, updatePiece_of_not_mem rest p.id _ hrest]
      simp only [activePts, hact, if_true, Bool.false_eq_true, if_false, ptsOf]
      ring
    · have hqp : q.id ≠ p.id := by
        intro he
        exact hnd.1 (he ▸ List.mem_map_of_mem Piece.id hmem2)
      simp only [updatePiece, List.map, if_neg hqp]
      have h2 : List.map (fun r => if r.id = p.id then { r with active := false } else r) rest
          = updatePiece rest p.id (fun r => { r with active := false }) := rfl
      rw [h2]
      simp only [activePts, ih hmem2 hnd.2]
      ring

theorem hit_points (s : SimState) (p : Piece) (aty : ActorType) (aid : ℤ) :
    (Target.hit s p aty aid).points = s.points + ptsOf p := rfl

theorem hit_pieces (s : SimState) (p : Piece) (aty : ActorType) (aid : ℤ) :
    (Target.hit s p aty aid).pieces =
      updatePiece s.pieces p.id (fun q => { q with active := false }) := rfl

theorem hit_possible (s : SimState) (p : Piece) (aty : ActorType) (aid : ℤ) :
    (Target.hit s p aty aid).possible_points = s.possible_points := rfl

theorem stepOk_hit (s : SimState) (p : Piece) (aty : ActorType) (aid : ℤ)
    (hmem : p ∈ s.pieces) (hact : p.active = true) :
    StepOk s (Target.hit s p aty aid) := by
  refine ⟨hit_possible s p aty aid, fun hi => ?_, fun he => he⟩
  obtain ⟨hsum, hnd, hnn⟩ := hi
  refine ⟨?_, ?_, ?_⟩
  · rw [hit_points, hit_pieces, hit_possible,
      activePts_deactivate s.pieces p hmem hnd hact]
    omega
  · rw [hit_pieces]
    have h2 : (updatePiece s.pieces p.id fun q => { q with active := false }).map Piece.id
        = s.pieces.map Piece.id :=
      ids_map_invar _ _ (fun q _ => by by_cases hid : q.id = p.id <;> simp [hid])
    rw [h2]; exact hnd
  · rw [hit_pieces]
    exact nonneg_map_invar _ _
      (fun q _ => by by_cases hid : q.id = p.id <;> simp [hid, ptsOf]) hnn

theorem attackCond_active {x y : ℤ} {p : Piece} (h : attackCond x y p = true) :
    p.active = true := by
  simp only [attackCond, Bool.and_eq_true] at h
  exact h.1.2

theorem stepOk_attack_pos_go (aty : ActorType) (aid x y : ℤ) :
    ∀ (l : List ℤ) (s : SimState) (e : ℤ),
      StepOk s (attack_pos_go aty aid x y l (s, e)).1 := by
  intro l
  induction l with
  | nil => intro s e; exact StepOk_refl s
  | cons pid rest ih =>
    intro s e
    unfold attack_pos_go
    cases hf : s.pieces.find? (fun p => p.id == pid) with
    | none => exact ih s e
    | some p =>
      by_cases hc : attackCond x y p = true
      · simp only [hc, if_true]
        exact StepOk_trans
          (stepOk_hit s p aty aid (List.mem_of_find?_eq_some hf) (attackCond_active hc))
          (ih _ _)
      · simp only [hc, if_false]
        exact ih s e

theorem stepOk_attack_pos (s : SimState) (aty : ActorType) (aid x y : ℤ) :
    StepOk s (GameEngine.attack_pos s aty aid x y).1 :=
  stepOk_attack_pos_go aty aid x y _ s 0

theorem stepOk_loopTopPiece (s : SimState) (pid : ℕ) (pieceId : ℤ) :
    StepOk s (loopTopPiece s pid pieceId) := by
  unfold loopTopPiece
  cases s.pieces.find? (fun p => p.id == pieceId) with
  | none => exact stepOk_finishProc s pid
  | some p =>
    by_cases hp : p.active <;> simp only [hp, if_true, Bool.false_eq_true, if_false]
    · exact stepOk_schedTimeout s pid p.speed
    · exact stepOk_finishProc s pid

theorem stepOk_loopTopPoisson (s : SimState) (pid : ℕ) (fid : ℤ) :
    StepOk s (loopTopPoisson s pid fid) := by
  unfold loopTopPoisson
  cases s.facilities.find? (fun f => f.id == fid) with
  | none => exact stepOk_finishProc s pid
  | some f =>
    exact StepOk_trans (stepOk_setRng s _) (stepOk_schedTimeout _ pid _)

theorem stepOk_startProc (s : SimState) (pr : Proc) : StepOk s (startProc s pr) := by
  unfold startProc
  cases pr.kind with
  | rwProc pieceId => exact stepOk_loopTopPiece s pr.pid pieceId
  | heliProc pieceId => exact stepOk_loopTopPiece s pr.pid pieceId
  | artilleryProc fid => exact stepOk_loopTopPoisson s pr.pid fid
  | helipadProc fid => exact stepOk_loopTopPoisson s pr.pid fid
  | reconProc fid => exact stepOk_loopTopPoisson s pr.pid fid
  | endgameProc => exact stepOk_schedTimeout s pr.pid 1

theorem stepOk_rwResume (s : SimState) (pid : ℕ) (pieceId : ℤ) :
    StepOk s (RWTarget.resume s pid pieceId) := by
  unfold RWTarget.resume
  cases s.pieces.find? (fun p => p.id == pieceId) with
  | none => exact stepOk_finishProc s pid
  | some p =>
    by_cases hp : p.active <;> simp only [hp, if_true, Bool.false_eq_true, if_false]
    · refine StepOk_trans ?_ (stepOk_loopTopPiece _ pid pieceId)
      refine StepOk_trans ?_ (stepOk_pushEvent _ pieceId _ _)
      refine StepOk_trans ?_ (stepOk_setPiecePos _ pieceId _ _)
      exact stepOk_setRng s _
    · exact stepOk_finishProc s pid

theorem stepOk_heliResume (hd : HeliDisp) (s : SimState) (pid : ℕ) (pieceId : ℤ) :
    StepOk s (Helicopter.resume hd s pid pieceId) := by
  unfold Helicopter.resume
  cases s.pieces.find? (fun p => p.id == pieceId) with
  | none => exact stepOk_finishProc s pid
  | some p =>
    by_cases hp : p.active <;> simp only [hp, if_true, Bool.false_eq_true, if_false]
    · refine StepOk_trans ?_ (stepOk_loopTopPiece _ pid pieceId)
      refine StepOk_trans ?_ (stepOk_addEarned _ _ _)
      refine StepOk_trans ?_ (stepOk_attack_pos _ .helicopterA pieceId _ _)
      refine StepOk_trans ?_ (stepOk_pushEvent _ pieceId _ _)
      refine StepOk_trans ?_ (stepOk_setPiecePos _ pieceId _ _)
      exact stepOk_setRng s _
    · exact stepOk_finishProc s pid

theorem stepOk_artilleryFire (s : SimState) (fid : ℤ) :
    StepOk s (Artillery.fire s fid) := by
  unfold Artillery.fire
  refine StepOk_trans ?_ (stepOk_addEarned _ _ _)
  refine StepOk_trans ?_ (stepOk_attack_pos _ .artilleryA fid _ _)
  refine StepOk_trans ?_ (stepOk_pushEvent _ fid _ _)
  refine StepOk_trans ?_ (stepOk_addEarned _ _ _)
  refine StepOk_trans ?_ (stepOk_attack_pos _ .artilleryA fid _ _)
  refine StepOk_trans ?_ (stepOk_pushEvent _ fid _ _)
  exact stepOk_setRng s _

theorem stepOk_artilleryResume (s : SimState) (pid : ℕ) (fid : ℤ) :
    StepOk s (Artillery.resume s pid fid) :=
  StepOk_trans (stepOk_artilleryFire s fid) (stepOk_loopTopPoisson _ pid fid)

/-- Appending a points-free piece with a fresh id (the spawned `Helicopter`)
preserves the scoring invariant. -/
theorem stepOk_appendPiece (s s2 : SimState) (h : Piece)
    (hpieces : s2.pieces = s.pieces ++ [h])
    (hpts : s2.points = s.points)
    (hposs : s2.possible_points = s.possible_points)
    (hhpts : h.points = none)
    (hnotin : h.id ∉ s.pieces.map Piece.id)
    (hq : s2.queue = s.queue) (hne : s2.nextEid = s.nextEid) :
    StepOk s s2 := by
  refine StepOk_of_piecewise hpts hposs ?_ ?_ ?_ hq hne
  · rw [hpieces, activePts_append]
    simp [activePts, ptsOf, hhpts]
  · intro hn
    rw [hpieces, List.map_append]
    simp only [List.map]
    rw [List.nodup_append]
    refine ⟨hn, List.nodup_singleton _, ?_⟩
    intro a ha hmem
    rcases List.mem_singleton.mp hmem with rfl
    exact hnotin ha
  · intro hn q hq
    rw [hpieces] at hq
    rcases List.mem_append.mp hq with hq2 | hq2
    · exact hn q hq2
    · rcases List.mem_singleton.mp hq2 with rfl
      simp [ptsOf, hhpts]

theorem stepOk_helipadResume (s : SimState) (pid : ℕ) (fid : ℤ) :
    StepOk s (Helipad.resume s pid fid) := by
  unfold Helipad.resume
  cases s.facilities.find? (fun f => f.id == fid) with
  | none => exact stepOk_finishProc s pid
  | some f =>
    dsimp only []
    split
    · exact StepOk_of_eq rfl rfl rfl rfl rfl
    next hdup =>
      refine StepOk_trans ?_ (stepOk_loopTopPoisson _ pid fid)
      refine StepOk_trans ?_ (stepOk_pushEvent _ fid _ _)
      refine StepOk_trans ?_ (stepOk_schedStart _ _)
      refine stepOk_appendPiece s _ _ rfl rfl rfl rfl ?_ rfl rfl
      intro hm
      exact hdup (by simpa using hm)

theorem stepOk_scanCols (fid scan_y : ℤ) (sr : ℚ) :
    ∀ (cols : List ℤ) (s : SimState),
      StepOk s (ReconPlane.scanCols fid scan_y sr cols s) := by
  intro cols
  induction cols with
  | nil => intro s; exact StepOk_refl s
  | cons i rest ih =>
    intro s
    unfold ReconPlane.scanCols
    dsimp only []
    split
    · refine StepOk_trans ?_ (ih _)
      refine StepOk_trans ?_ (stepOk_addEarned _ _ _)
      refine StepOk_trans ?_ (stepOk_attack_pos _ .reconPlaneA fid i scan_y)
      refine StepOk_trans ?_ (stepOk_pushEvent _ fid _ _)
      exact stepOk_setRng s _
    · exact StepOk_trans (stepOk_setRng s _) (ih _)

theorem stepOk_reconResume (s : SimState) (pid : ℕ) (fid : ℤ) :
    StepOk s (ReconPlane.resume s pid fid) := by
  unfold ReconPlane.resume
  cases s.facilities.find? (fun f => f.id == fid) with
  | none => exact stepOk_finishProc s pid
  | some f =>
    dsimp only []
    refine StepOk_trans ?_ (stepOk_loopTopPoisson _ pid fid)
    refine StepOk_trans ?_ (stepOk_scanCols fid _ _ _ _)
    refine StepOk_trans ?_ (stepOk_pushEvent _ fid _ _)
    refine StepOk_trans ?_ (stepOk_setRng _ _)
    exact StepOk_of_eq rfl rfl rfl rfl rfl

theorem stepOk_interruptAll (s : SimState) (l : List ℕ) :
    StepOk s (interruptAll s l) := by
  induction l generalizing s with
  | nil => exact StepOk_refl s
  | cons pid rest ih =>
    unfold interruptAll
    cases s.procs.find? (fun pr => pr.pid == pid) with
    | none => exact ih s
    | some pr =>
      dsimp only []
      split
      · exact StepOk_of_eq rfl rfl rfl rfl rfl
      · exact StepOk_trans (StepOk_of_eq rfl rfl rfl rfl rfl) (ih _)

theorem stepOk_endgameResume (s : SimState) (pid : ℕ) :
    StepOk s (endgameResume s pid) := by
  unfold endgameResume
  dsimp only []
  split
  · exact stepOk_schedTimeout s pid 1
  · split
    · exact stepOk_interruptAll s _
    · split
      · refine StepOk_trans ?_ (stepOk_interruptAll _ _)
        exact stepOk_interruptAll s _
      · refine StepOk_trans ?_ (stepOk_finishProc _ pid)
        refine StepOk_trans ?_ (stepOk_interruptAll _ _)
        exact stepOk_interruptAll s _

theorem stepOk_resumeProc (hd : HeliDisp) (s : SimState) (pr : Proc) :
    StepOk s (resumeProc hd s pr) := by
  unfold resumeProc
  cases pr.kind with
  | rwProc pieceId => exact stepOk_rwResume s pr.pid pieceId
  | heliProc pieceId => exact stepOk_heliResume hd s pr.pid pieceId
  | artilleryProc fid => exact stepOk_artilleryResume s pr.pid fid
  | helipadProc fid => exact stepOk_helipadResume s pr.pid fid
  | reconProc fid => exact stepOk_reconResume s pr.pid fid
  | endgameProc => exact stepOk_endgameResume s pr.pid

theorem stepOk_applyEntry (hd : HeliDisp) (s : SimState) (e : QEntry) :
    StepOk s (applyEntry hd s e) := by
  unfold applyEntry
  dsimp only []
  refine StepOk_trans (stepOk_popEntry s e) ?_
  cases (popEntry s e).procs.find? (fun pr => pr.pid == e.pid) with
  | none => exact StepOk_refl _
  | some pr =>
    dsimp only []
    split
    · split
      · exact stepOk_startProc _ pr
      · exact stepOk_resumeProc hd _ pr
    · exact StepOk_refl _

theorem stepOk_simStep (hd : HeliDisp) (s : SimState) : StepOk s (simStep hd s) := by
  unfold simStep
  split
  · exact StepOk_refl s
  · cases minEntry s.queue with
    | none => exact StepOk_refl s
    | some e =>
      dsimp only []
      split
      · exact stepOk_applyEntry hd s e
      · exact StepOk_refl s

theorem stepOk_simStepN (hd : HeliDisp) (n : ℕ) (s : SimState) :
    StepOk s (simStepN hd n s) := by
  induction n generalizing s with
  | zero => exact StepOk_refl s
  | succ n ih =>
    exact StepOk_trans (stepOk_simStep hd s) (ih (simStep hd s))

/-! ### The state `run()` starts the event loop from -/

theorem registerProc_fields (s : SimState) (k : ProcKind) (lst : Option Bool) :
    (registerProc s k lst).pieces = s.pieces ∧
    (registerProc s k lst).points = s.points ∧
    (registerProc s k lst).possible_points = s.possible_points := by
  cases lst with
  | none => exact ⟨rfl, rfl, rfl⟩
  | some b => cases b <;> exact ⟨rfl, rfl, rfl⟩

theorem registerPieces_fields (l : List Piece) :
    ∀ s : SimState,
      (registerPieces l s).pieces = s.pieces ∧
      (registerPieces l s).points = s.points ∧
      (registerPieces l s).possible_points = s.possible_points := by
  induction l with
  | nil => intro s; exact ⟨rfl, rfl, rfl⟩
  | cons p rest ih =>
    intro s
    unfold registerPieces
    cases procKindOfPiece? p with
    | none => exact ih s
    | some k =>
      obtain ⟨h1, h2, h3⟩ := ih (registerProc s k (some true))
      obtain ⟨g1, g2, g3⟩ := registerProc_fields s k (some true)
      exact ⟨h1.trans g1, h2.trans g2, h3.trans g3⟩

theorem registerFacilities_fields (l : List Facility) :
    ∀ s : SimState,
      (registerFacilities l s).pieces = s.pieces ∧
      (registerFacilities l s).points = s.points ∧
      (registerFacilities l s).possible_points = s.possible_points := by
  induction l with
  | nil => intro s; exact ⟨rfl, rfl, rfl⟩
  | cons f rest ih =>
    intro s
    unfold registerFacilities
    split
    · obtain ⟨h1, h2, h3⟩ := ih (registerProc s (procKindOfFacility f) (some false))
      obtain ⟨g1, g2, g3⟩ := registerProc_fields s (procKindOfFacility f) (some false)
      exact ⟨h1.trans g1, h2.trans g2, h3.trans g3⟩
    · exact ih s

theorem initSim_fields (g : GameEngineState) (rng : RNG) :
    (initSim g rng).pieces = g.pieces ∧
    (initSim g rng).points = g.points ∧
    (initSim g rng).possible_points = sumPoints g.pieces := by
  unfold initSim
  obtain ⟨e1, e2, e3⟩ := registerProc_fields
    (registerFacilities g.facilities (registerPieces g.pieces _)) ProcKind.endgameProc none
  obtain ⟨f1, f2, f3⟩ := registerFacilities_fields g.facilities (registerPieces g.pieces _)
  obtain ⟨p1, p2, p3⟩ := registerPieces_fields g.pieces _
  refine ⟨?_, ?_, ?_⟩
  · rw [e1, f1, p1]
  · rw [e2, f2, p2]
  · rw [e3, f3, p3]

theorem ptsOf_match (p : Piece) :
    (match p.points with | some v => v | none => 0) = ptsOf p := by
  cases hp : p.points <;> simp [ptsOf, hp]

theorem activePts_eq_sumPoints (ps : List Piece) (h : ∀ p ∈ ps, p.active = true) :
    activePts ps = sumPoints ps := by
  induction ps with
  | nil => rfl
  | cons p rest ih =>
    simp only [activePts, sumPoints, h p (List.mem_cons_self p rest), if_true, ptsOf_match,
      ih (fun q hq => h q (List.mem_cons_of_mem p hq))]

theorem pieceInv_initSim (g : GameEngineState) (rng : RNG)
    (hp0 : g.points = 0)
    (hact : ∀ p ∈ g.pieces, p.active = true)
    (hnn : ∀ p ∈ g.pieces, 0 ≤ ptsOf p)
    (hnd : (g.pieces.map Piece.id).Nodup) :
    PieceInv (initSim g rng) := by
  obtain ⟨h1, h2, h3⟩ := initSim_fields g rng
  refine ⟨?_, ?_, ?_⟩
  · rw [h1, h2, h3, hp0, activePts_eq_sumPoints g.pieces hact]
    ring
  · rw [h1]; exact hnd
  · rw [h1]; exact hnn

/-! ### The claims about `run()` -/

/-- C5: at every point during a run (every prefix of the event loop, any
amount of fuel `n`) the cumulative `points` total never exceeds
`possible_points`, which `run()` computes once at run start as the sum of the
`points` attribute over all pieces possessing it.  Hypotheses: the engine is
configured and within budget, `setup` reset `points` to 0, all registered
pieces start active with nonnegative point values and distinct ids (a Python
dict).  Each target is credited at most once because `hit` deactivates it and
`attack_pos` hits only active targets. -/
theorem run_points_le_possible (hd : HeliDisp) (g : GameEngineState) (rng : RNG)
    (hsu : g.set_up = some true)
    (hb : sumResources g.facilities ≤ g.resource_limit)
    (hp0 : g.points = 0)
    (hact : ∀ p ∈ g.pieces, p.active = true)
    (hnn : ∀ p ∈ g.pieces, 0 ≤ ptsOf p)
    (hnd : (g.pieces.map Piece.id).Nodup) :
    ∀ n : ℕ, (simStepN hd n (initSim g rng)).points ≤
      (simStepN hd n (initSim g rng)).possible_points := by
  intro n
  obtain ⟨hsum, hnd2, hnn2⟩ :=
    (stepOk_simStepN hd n (initSim g rng)).2.1 (pieceInv_initSim g rng hp0 hact hnn hnd)
  have hge := activePts_nonneg _ hnn2
  omega

theorem run_points_le_possible_witness :
    gEx.set_up = some true ∧
    sumResources gEx.facilities ≤ gEx.resource_limit ∧
    gEx.points = 0 ∧
    (∀ p ∈ gEx.pieces, p.active = true) ∧
    (∀ p ∈ gEx.pieces, 0 ≤ ptsOf p) ∧
    (gEx.pieces.map Piece.id).Nodup ∧
    (simStepN hd0 1 (initSim gEx rng0)).points ≤
      (simStepN hd0 1 (initSim gEx rng0)).possible_points :=
  ⟨rfl, by decide, rfl, by decide, by decide, by decide,
    run_points_le_possible hd0 gEx rng0 rfl (by decide) rfl (by decide) (by decide) (by decide) 1⟩

/-- C3: with the engine configured and the summed facility resources strictly
above `resource_limit`, `run()` raises the budget `ValueError` before any
process is scheduled: the outcome is `BudgetExceeded` for EVERY random stream,
helicopter displacement and fuel amount — no simulation step depends on them,
no event is processed, no score is computed (`possible_points` is reset to 0
and the sum over pieces is never taken), and the registered pieces,
facilities, points and event log are untouched. -/
theorem run_budget_exceeded_aborts (g : GameEngineState)
    (hsu : g.set_up = some true)
    (hover : g.resource_limit < sumResources g.facilities) :
    ∀ (hd : HeliDisp) (rng : RNG) (fuel : ℕ),
      GameEngine.run hd g rng fuel = .error .valueErrorBudget := by
  intro hd rng fuel
  unfold GameEngine.run
  rw [hsu]
  simp [hover]

theorem run_budget_exceeded_aborts_witness :
    gOver.set_up = some true ∧
    gOver.resource_limit < sumResources gOver.facilities ∧
    GameEngine.run hd0 gOver rng0 0 = .error .valueErrorBudget :=
  ⟨rfl, by decide, run_budget_exceeded_aborts gOver rfl (by decide) hd0 rng0 0⟩

/-- C4 (code bug): `GameEngine.__init__` never assigns `self.set_up`, so
calling `run()` on an engine on which `setup()` was never called fails when
the guard reads the attribute — but with `AttributeError`, not the intended
`NotConfigured` `RuntimeError` (that `raise` is unreachable).  No partial
simulation is performed: the outcome is the same for every size, limit,
stream, displacement and fuel. -/
theorem run_before_setup_attribute_error (size limit : ℤ) (hd : HeliDisp)
    (rng : RNG) (fuel : ℕ) :
    GameEngine.run hd (GameEngine.init size limit) rng fuel =
      .error .attributeErrorSetUp := rfl

/-- C1 (amended): on normal completion `run()` returns no value (Python
`None`; the function has no `return` statement).  The run result the spec
describes is exposed as state instead: the final `points` and
`possible_points` live on the engine (with `possible_points` computed at run
start as the sum over point-bearing pieces and never changed by the event
loop), and each active facility's `(earned_points, resources)` pair is logged
by `print_stats`. -/
theorem run_returns_none_result_in_state (hd : HeliDisp) (g : GameEngineState)
    (rng : RNG) (fuel : ℕ)
    (hsu : g.set_up = some true)
    (hb : sumResources g.facilities ≤ g.resource_limit)
    (hok : (simStepN hd fuel (initSim g rng)).error = none) :
    GameEngine.run hd g rng fuel = .ok (simStepN hd fuel (initSim g rng), none) ∧
    (simStepN hd fuel (initSim g rng)).possible_points = sumPoints g.pieces := by
  constructor
  · unfold GameEngine.run
    rw [hsu]
    simp only [if_neg (not_lt.mpr hb), hok]
  · rw [(stepOk_simStepN hd fuel (initSim g rng)).1, (initSim_fields g rng).2.2]

theorem run_returns_none_result_in_state_witness :
    gEx.set_up = some true ∧
    sumResources gEx.facilities ≤ gEx.resource_limit ∧
    (simStepN hd0 1 (initSim gEx rng0)).error = none ∧
    (GameEngine.run hd0 gEx rng0 1 = .ok (simStepN hd0 1 (initSim gEx rng0), none) ∧
     (simStepN hd0 1 (initSim gEx rng0)).possible_points = sumPoints gEx.pieces) :=
  ⟨rfl, by decide, by decide,
    run_returns_none_result_in_state hd0 gEx rng0 1 rfl (by decide) (by decide)⟩

/-! ### Determinism of the scheduler (C2) -/

theorem keyLt_trichot (a b : ℚ × ℕ × ℕ) : keyLt a b ∨ a = b ∨ keyLt b a := by
  obtain ⟨a1, a2, a3⟩ := a
  obtain ⟨b1, b2, b3⟩ := b
  unfold keyLt
  rcases lt_trichotomy a1 b1 with h | h | h
  · exact Or.inl (Or.inl h)
  · subst h
    rcases lt_trichotomy a2 b2 with h2 | h2 | h2
    · exact Or.inl (Or.inr ⟨rfl, Or.inl h2⟩)
    · subst h2
      rcases lt_trichotomy a3 b3 with h3 | h3 | h3
      · exact Or.inl (Or.inr ⟨rfl, Or.inr ⟨rfl, h3⟩⟩)
      · subst h3; exact Or.inr (Or.inl rfl)
      · exact Or.inr (Or.inr (Or.inr ⟨rfl, Or.inr ⟨rfl, h3⟩⟩))
    · exact Or.inr (Or.inr (Or.inr ⟨rfl, Or.inl h2⟩))
  · exact Or.inr (Or.inr (Or.inl h))

theorem mem_eid_inj (q : List QEntry) (hnd : (q.map QEntry.eid).Nodup)
    {e1 e2 : QEntry} (h1 : e1 ∈ q) (h2 : e2 ∈ q) (he : e1.eid = e2.eid) : e1 = e2 := by
  induction q with
  | nil => cases h1
  | cons e rest ih =>
    simp only [List.map, List.nodup_cons] at hnd
    rcases List.mem_cons.mp h1 with rfl | h1m
    · rcases List.mem_cons.mp h2 with rfl | h2m
      · rfl
      · exact absurd (he ▸ List.mem_map_of_mem QEntry.eid h2m) hnd.1
    · rcases List.mem_cons.mp h2 with rfl | h2m
      · exact absurd (he ▸ List.mem_map_of_mem QEntry.eid h1m) hnd.1
      · exact ih hnd.2 h1m h2m

theorem eidsOk_registerProc (s : SimState) (k : ProcKind) (lst : Option Bool)
    (h : EidsOk s) : EidsOk (registerProc s k lst) := by
  unfold registerProc
  cases lst with
  | none => exact (stepOk_schedStart _ _).2.2 h
  | some b => cases b <;> exact (stepOk_schedStart _ _).2.2 h

theorem eidsOk_registerPieces (l : List Piece) :
    ∀ s : SimState, EidsOk s → EidsOk (registerPieces l s) := by
  induction l with
  | nil => intro s h; exact h
  | cons p rest ih =>
    intro s h
    unfold registerPieces
    cases procKindOfPiece? p with
    | none => exact ih s h
    | some k => exact ih _ (eidsOk_registerProc s k (some true) h)

theorem eidsOk_registerFacilities (l : List Facility) :
    ∀ s : SimState, EidsOk s → EidsOk (registerFacilities l s) := by
  induction l with
  | nil => intro s h; exact h
  | cons f rest ih =>
    intro s h
    unfold registerFacilities
    split
    · exact ih _ (eidsOk_registerProc s (procKindOfFacility f) (some false) h)
    · exact ih s h

/-- The state `run()` builds satisfies the event-id discipline, and it is
maintained by every step of the event loop: reachable states have pairwise
distinct eids in their queue. -/
theorem eidsOk_reachable (hd : HeliDisp) (g : GameEngineState) (rng : RNG) (n : ℕ) :
    EidsOk (simStepN hd n (initSim g rng)) := by
  refine (stepOk_simStepN hd n _).2.2 ?_
  unfold initSim
  refine eidsOk_registerProc _ _ none (eidsOk_registerFacilities _ _
    (eidsOk_registerPieces _ _ ?_))
  exact ⟨fun e he => absurd he (List.not_mem_nil e), List.nodup_nil⟩

/-- With all eids distinct (simpy allocates them from a monotone counter),
at most one queue entry can be popped: the heap order has a unique minimum. -/
theorem popsTo_unique (s : SimState) (hnd : (s.queue.map QEntry.eid).Nodup)
    {e1 e2 : QEntry} (h1 : PopsTo s e1) (h2 : PopsTo s e2) : e1 = e2 := by
  obtain ⟨m1, min1⟩ := h1
  obtain ⟨m2, min2⟩ := h2
  have hk : e1.key = e2.key := by
    rcases keyLt_trichot e1.key e2.key with h | h | h
    · exact absurd h (min2 e1 m1)
    · exact h
    · exact absurd h (min1 e2 m2)
  exact mem_eid_inj s.queue hnd m1 m2 (congrArg (fun k => k.2.2) hk)

/-- C2: at every state reachable during a run, the engine step relation is
single-valued — the eids in the queue are pairwise distinct (simpy's monotone
event counter, proven as an invariant), so when several processes are due at
the same simulated instant the `(time, priority, eid)` tie-break leaves no
choice and only one successor state is possible; in particular its event log
and score are uniquely determined.  Since the random stream is explicit state,
a whole run is a function of the configuration and the seed: two independent
runs with the same seed and allocation produce identical event sequences and
identical final scores. -/
theorem scheduler_step_deterministic (hd : HeliDisp) (g : GameEngineState)
    (rng : RNG) (n : ℕ) (s1 s2 : SimState)
    (h1 : SimStepRel hd (simStepN hd n (initSim g rng)) s1)
    (h2 : SimStepRel hd (simStepN hd n (initSim g rng)) s2) :
    s1 = s2 ∧ s1.event_queue = s2.event_queue ∧ s1.points = s2.points := by
  obtain ⟨-, e1, hp1, -, rfl⟩ := h1
  obtain ⟨-, e2, hp2, -, rfl⟩ := h2
  rw [popsTo_unique _ (eidsOk_reachable hd g rng n).2 hp1 hp2]
  exact ⟨rfl, rfl, rfl⟩

theorem scheduler_step_deterministic_witness :
    SimStepRel hd0 sEx (applyEntry hd0 sEx eEx) ∧
    (applyEntry hd0 sEx eEx = applyEntry hd0 sEx eEx ∧
     (applyEntry hd0 sEx eEx).event_queue = (applyEntry hd0 sEx eEx).event_queue ∧
     (applyEntry hd0 sEx eEx).points = (applyEntry hd0 sEx eEx).points) :=
  have hrel : SimStepRel hd0 sEx (applyEntry hd0 sEx eEx) :=
    ⟨rfl, eEx, by decide, by decide, rfl⟩
  ⟨hrel, scheduler_step_deterministic hd0 gEx rng0 0 _ _ hrel hrel⟩

/-! ### What one `attack_pos` call does (for C10) -/

theorem deactivateAt_id (x y : ℤ) (p : Piece) : (deactivateAt x y p).id = p.id := by
  unfold deactivateAt; split <;> rfl

theorem find?_id_append (pre : List Piece) (p : Piece) (rest : List Piece)
    (h : ∀ q ∈ pre, q.id ≠ p.id) :
    (pre ++ p :: rest).find? (fun q => q.id == p.id) = some p := by
  induction pre with
  | nil =>
    rw [List.nil_append]
    exact List.find?_cons_of_pos _ (beq_self_eq_true p.id)
  | cons q pre2 ih =>
    rw [List.cons_append, List.find?_cons_of_neg]
    · exact ih (fun r hr => h r (List.mem_cons_of_mem q hr))
    · simpa using h q (List.mem_cons_self q pre2)

theorem updatePiece_middle (pre : List Piece) (p : Piece) (rest : List Piece)
    (f : Piece → Piece)
    (hpre : ∀ q ∈ pre, q.id ≠ p.id) (hrest : ∀ q ∈ rest, q.id ≠ p.id) :
    updatePiece (pre ++ p :: rest) p.id f = pre ++ f p :: rest := by
  have h1 : updatePiece pre p.id f = pre := updatePiece_of_not_mem pre p.id f hpre
  have h2 : updatePiece rest p.id f = rest := updatePiece_of_not_mem rest p.id f hrest
  unfold updatePiece at h1 h2 ⊢
  rw [List.map_append, List.map_cons, h1, h2, if_pos rfl]

theorem attack_pos_go_facilities (aty : ActorType) (aid x y : ℤ) :
    ∀ (l : List ℤ) (s : SimState) (e : ℤ),
      (attack_pos_go aty aid x y l (s, e)).1.facilities = s.facilities := by
  intro l
  induction l with
  | nil => intro s e; rfl
  | cons pid rest ih =>
    intro s e
    unfold attack_pos_go
    cases hf : s.pieces.find? (fun p => p.id == pid) with
    | none => exact ih s e
    | some p =>
      by_cases hc : attackCond x y p = true
      · simp only [hc, if_true]
        exact (ih _ _).trans rfl
      · simp only [hc, if_false]
        exact ih s e

theorem attack_pos_go_pieces_ret (aty : ActorType) (aid x y : ℤ) :
    ∀ (l pre : List Piece) (s : SimState) (e : ℤ),
      s.pieces = pre ++ l →
      ((pre ++ l).map Piece.id).Nodup →
      (attack_pos_go aty aid x y (l.map Piece.id) (s, e)).1.pieces =
        pre ++ l.map (deactivateAt x y) ∧
      (attack_pos_go aty aid x y (l.map Piece.id) (s, e)).2 = e + attackSum x y l := by
  intro l
  induction l with
  | nil =>
    intro pre s e hpieces hnd
    rw [List.append_nil] at hpieces
    simp only [List.map_nil, attack_pos_go, List.append_nil]
    refine ⟨hpieces, ?_⟩
    show e = e + attackSum x y []
    simp [attackSum]
  | cons p rest ih =>
    intro pre s e hpieces hnd
    have hnd2 := hnd
    rw [List.map_append, List.map_cons, List.nodup_append] at hnd2
    obtain ⟨hndpre, hndcons, hdisj⟩ := hnd2
    have hcons := List.nodup_cons.mp hndcons
    have hrest : ∀ q ∈ rest, q.id ≠ p.id := by
      intro q hq he
      exact hcons.1 (he ▸ List.mem_map_of_mem Piece.id hq)
    have hpre : ∀ q ∈ pre, q.id ≠ p.id := by
      intro q hq he
      exact hdisj (List.mem_map_of_mem Piece.id hq)
        (he ▸ List.mem_cons_self p.id (rest.map Piece.id))
    have hfind : s.pieces.find? (fun q => q.id == p.id) = some p := by
      rw [hpieces]; exact find?_id_append pre p rest hpre
    rw [List.map_cons]
    unfold attack_pos_go
    rw [hfind]
    dsimp only []
    by_cases hc : attackCond x y p = true
    · rw [if_pos hc]
      have hdp : deactivateAt x y p = { p with active := false } := if_pos hc
      have hp2 : (Target.hit s p aty aid).pieces =
          (pre ++ [deactivateAt x y p]) ++ rest := by
        rw [hit_pieces, hpieces, updatePiece_middle pre p rest _ hpre hrest, hdp]
        simp
      have hnd3 : (((pre ++ [deactivateAt x y p]) ++ rest).map Piece.id).Nodup := by
        have hids : ((pre ++ [deactivateAt x y p]) ++ rest).map Piece.id =
            (pre ++ p :: rest).map Piece.id := by
          simp [deactivateAt_id]
        rw [hids]; exact hnd
      obtain ⟨ih1, ih2⟩ := ih (pre ++ [deactivateAt x y p]) (Target.hit s p aty aid)
        (e + ptsOf p) hp2 hnd3
      constructor
      · rw [ih1]
        simp
      · rw [ih2]
        simp only [attackSum, hc, if_true]
        omega
    · rw [if_neg hc]
      have hp2 : s.pieces = (pre ++ [p]) ++ rest := by
        rw [hpieces]; simp
      have hnd3 : (((pre ++ [p]) ++ rest).map Piece.id).Nodup := by
        have hids : ((pre ++ [p]) ++ rest).map Piece.id = (pre ++ p :: rest).map Piece.id := by
          simp
        rw [hids]; exact hnd
      obtain ⟨ih1, ih2⟩ := ih (pre ++ [p]) s e hp2 hnd3
      constructor
      · rw [ih1]
        have hdp : deactivateAt x y p = p := if_neg hc
        rw [List.map_cons, hdp]
        simp
      · rw [ih2]
        simp only [attackSum]
        rw [if_neg hc]
        omega

/-- One `attack_pos(attacker, x, y)` call deactivates exactly the active
targets at `(x, y)` (leaving every other piece untouched), returns the sum of
their point values, and does not touch the facility registry. -/
theorem attack_pos_spec (s : SimState) (aty : ActorType) (aid x y : ℤ)
    (hnd : (s.pieces.map Piece.id).Nodup) :
    (GameEngine.attack_pos s aty aid x y).1.pieces = s.pieces.map (deactivateAt x y) ∧
    (GameEngine.attack_pos s aty aid x y).2 = attackSum x y s.pieces ∧
    (GameEngine.attack_pos s aty aid x y).1.facilities = s.facilities := by
  obtain ⟨h1, h2⟩ := attack_pos_go_pieces_ret aty aid x y s.pieces [] s 0
    (by simp) (by simpa using hnd)
  refine ⟨by simpa using h1, by simpa using h2, attack_pos_go_facilities aty aid x y _ s 0⟩

theorem updateFacilityList_credit_credit (fs : List Facility) (fid a b : ℤ) :
    updateFacilityList (updateFacilityList fs fid (fun f => creditEarned f a)) fid
        (fun f => creditEarned f b) =
      updateFacilityList fs fid (fun f => creditEarned f (a + b)) := by
  induction fs with
  | nil => rfl
  | cons f rest ih =>
    unfold updateFacilityList at ih ⊢
    rw [List.map_cons, List.map_cons, List.map_cons]
    by_cases hid : f.id = fid
    · rw [if_pos hid, if_pos (by simp [creditEarned, hid]), if_pos hid]
      rw [ih]
      simp [creditEarned]
      omega
    · rw [if_neg hid, if_neg hid, if_neg hid]
      rw [ih]

/-- The combined effect of the two attack calls inside one artillery firing,
stated against the intermediate states `s1` (after the "fired" event) and `s3`
(after crediting the first attack and the antithetic "fired" event). -/
theorem fire_effect_aux (s s1 s3 : SimState) (fid px py : ℤ)
    (h1p : s1.pieces = s.pieces) (h1f : s1.facilities = s.facilities)
    (h3p : s3.pieces = (GameEngine.attack_pos s1 .artilleryA fid px py).1.pieces)
    (h3f : s3.facilities =
      updateFacilityList (GameEngine.attack_pos s1 .artilleryA fid px py).1.facilities fid
        (fun f => creditEarned f (GameEngine.attack_pos s1 .artilleryA fid px py).2))
    (hnd : (s.pieces.map Piece.id).Nodup) :
    (addEarned (GameEngine.attack_pos s3 .artilleryA fid (-px) (-py)).1 fid
        (GameEngine.attack_pos s3 .artilleryA fid (-px) (-py)).2).pieces =
      s.pieces.map (fun p => deactivateAt (-px) (-py) (deactivateAt px py p)) ∧
    (addEarned (GameEngine.attack_pos s3 .artilleryA fid (-px) (-py)).1 fid
        (GameEngine.attack_pos s3 .artilleryA fid (-px) (-py)).2).facilities =
      updateFacilityList s.facilities fid (fun f =>
        creditEarned f (attackSum px py s.pieces +
          attackSum (-px) (-py) (s.pieces.map (deactivateAt px py)))) := by
  have hnd1 : (s1.pieces.map Piece.id).Nodup := by rw [h1p]; exact hnd
  have spec1 := attack_pos_spec s1 .artilleryA fid px py hnd1
  have h3pieces : s3.pieces = s.pieces.map (deactivateAt px py) := by
    rw [h3p, spec1.1, h1p]
  have hnd3 : (s3.pieces.map Piece.id).Nodup := by
    rw [h3pieces, ids_map_invar s.pieces (deactivateAt px py)
      (fun p _ => deactivateAt_id px py p)]
    exact hnd
  have spec2 := attack_pos_spec s3 .artilleryA fid (-px) (-py) hnd3
  constructor
  · show (GameEngine.attack_pos s3 .artilleryA fid (-px) (-py)).1.pieces = _
    rw [spec2.1, h3pieces, List.map_map]
    rfl
  · show updateFacilityList
        (GameEngine.attack_pos s3 .artilleryA fid (-px) (-py)).1.facilities fid
        (fun f => creditEarned f (GameEngine.attack_pos s3 .artilleryA fid (-px) (-py)).2) = _
    rw [spec2.2.2, spec2.2.1, h3pieces, h3f, spec1.2.2, spec1.2.1, h1p, h1f,
      updateFacilityList_credit_credit]

/-- C10: on every firing of `Artillery.run()` the facility unconditionally
performs exactly two attack calls — one at the sampled uniform-random cell
`(x, y)`, a second antithetic one at the mirrored cell `(-x, -y)` — and its
`earned_points` grows by exactly the points of the targets the two attacks
destroy.  There is no flag making the mirrored shot optional: the effect below
holds for every state and every random stream. -/
theorem artillery_fires_two_attacks (s : SimState) (fid : ℤ)
    (hnd : (s.pieces.map Piece.id).Nodup) :
    ∃ x y : ℤ,
      (x, y) = GameEngine.random_pos s.size (s.rng.natSeq s.rng.idx)
        (s.rng.natSeq (s.rng.idx + 1)) ∧
      (Artillery.fire s fid).pieces =
        s.pieces.map (fun p => deactivateAt (-x) (-y) (deactivateAt x y p)) ∧
      (Artillery.fire s fid).facilities =
        updateFacilityList s.facilities fid (fun f =>
          creditEarned f (attackSum x y s.pieces +
            attackSum (-x) (-y) (s.pieces.map (deactivateAt x y)))) := by
  have fire_eq : Artillery.fire s fid =
      addEarned
        (GameEngine.attack_pos (fireState3 s fid) .artilleryA fid
          (-(fireDrawX s)) (-(fireDrawY s))).1 fid
        (GameEngine.attack_pos (fireState3 s fid) .artilleryA fid
          (-(fireDrawX s)) (-(fireDrawY s))).2 := rfl
  refine ⟨fireDrawX s, fireDrawY s, rfl, ?_, ?_⟩
  · rw [fire_eq]
    exact (fire_effect_aux s (fireState1 s fid) (fireState3 s fid) fid
      (fireDrawX s) (fireDrawY s) rfl rfl rfl rfl hnd).1
  · rw [fire_eq]
    exact (fire_effect_aux s (fireState1 s fid) (fireState3 s fid) fid
      (fireDrawX s) (fireDrawY s) rfl rfl rfl rfl hnd).2

theorem artillery_fires_two_attacks_witness :
    (sEx.pieces.map Piece.id).Nodup ∧
    (∃ x y : ℤ,
      (x, y) = GameEngine.random_pos sEx.size (sEx.rng.natSeq sEx.rng.idx)
        (sEx.rng.natSeq (sEx.rng.idx + 1)) ∧
      (Artillery.fire sEx 1).pieces =
        sEx.pieces.map (fun p => deactivateAt (-x) (-y) (deactivateAt x y p)) ∧
      (Artillery.fire sEx 1).facilities =
        updateFacilityList sEx.facilities 1 (fun f =>
          creditEarned f (attackSum x y sEx.pieces +
            attackSum (-x) (-y) (sEx.pieces.map (deactivateAt x y))))) :=
  ⟨by decide, artillery_fires_two_attacks sEx 1 (by decide)⟩

/-- C1 counterexample: on a concrete configured, within-budget game whose
event loop runs without error, the value `run()` returns is Python's `None` —
for NO run-result record `r` does it return `r`.  The claim that `run()`
returns `{finalPoints, possiblePoints, perFacility}` is false of the code:
callers (src/simulations.py) read `game.points` from the object instead. -/
theorem run_return_value_none_counterexample :
    (GameEngine.run hd0 gEx rng0 1).map Prod.snd = Except.ok none ∧
    ∀ r : RunResult, (GameEngine.run hd0 gEx rng0 1).map Prod.snd ≠ Except.ok (some r) := by
  constructor
  · rfl
  · intro r hr
    rw [show (GameEngine.run hd0 gEx rng0 1).map Prod.snd = Except.ok none from rfl] at hr
    simp at hr

end StochasticGame
